import Mathlib

/-!
Verification development for the buildstory-agents decision core:
the content hasher (`generateVariantHash`), the persona classifier
(`classifyPersona`), the Beta-Bernoulli Thompson-sampling bandit
(`sampleBeta`, `chooseVariant`, `updateBanditState`), the experiment
strategist (`chooseOptimalVariant`, `recordConversion`, `processTimeouts`,
`resetSectionBandit`) and the storyboard assembler (`assembleStoryboard`).

Modelling conventions:
* JavaScript numbers are modelled as exact rationals; the decimal literals
  that appear in the source (0.1, 0.3, ...) are modelled by the rationals
  they denote.  Every comparison performed by the embedded code on the
  concrete inputs used in the theorems below has the same outcome for IEEE
  doubles and for exact rationals.
* `Math.random()` is modelled by an externally supplied stream
  `rng : Nat -> Rat` together with a cursor counting how many draws have
  been consumed; `Math.log` is an explicit function parameter `ln`, since
  none of the verified properties depend on analytic facts about log.
* Thrown exceptions are modelled with `Except String`.
* The Supabase tables are modelled as in-memory lists with the upsert /
  select semantics used by `src/lib/server/database.ts`; the primary key
  `(story_id, section_key, variant_hash)` of `bandit_state` becomes a
  `Nodup` hypothesis on the modelled table.
-/

deriving instance DecidableEq for Except

namespace BuildStory

/-! ### JSON values

A `Section` is, to the hashing core, a JavaScript object built from string
fields, arrays and nested objects (see the zod schemas in
`src/lib/storyboard.ts`; no section schema contains numbers or booleans).
Objects carry their fields as an ordered list of key/value pairs, which is
exactly the property-insertion order that `JSON.stringify` consumes. -/

inductive Json where
  | str : String → Json
  | arr : List Json → Json
  | obj : List (String × Json) → Json

mutual

def jsonDecEq : (a b : Json) → Decidable (a = b)
  | .str s, .str t =>
    match String.decEq s t with
    | isTrue h => isTrue (by rw [h])
    | isFalse h => isFalse (fun he => h (Json.str.inj he))
  | .str _, .arr _ => isFalse (fun he => Json.noConfusion he)
  | .str _, .obj _ => isFalse (fun he => Json.noConfusion he)
  | .arr _, .str _ => isFalse (fun he => Json.noConfusion he)
  | .arr xs, .arr ys =>
    match jsonListDecEq xs ys with
    | isTrue h => isTrue (by rw [h])
    | isFalse h => isFalse (fun he => h (Json.arr.inj he))
  | .arr _, .obj _ => isFalse (fun he => Json.noConfusion he)
  | .obj _, .str _ => isFalse (fun he => Json.noConfusion he)
  | .obj _, .arr _ => isFalse (fun he => Json.noConfusion he)
  | .obj fs, .obj gs =>
    match jsonFieldsDecEq fs gs with
    | isTrue h => isTrue (by rw [h])
    | isFalse h => isFalse (fun he => h (Json.obj.inj he))

def jsonListDecEq : (a b : List Json) → Decidable (a = b)
  | [], [] => isTrue rfl
  | [], _ :: _ => isFalse (fun he => List.noConfusion he)
  | _ :: _, [] => isFalse (fun he => List.noConfusion he)
  | x :: xs, y :: ys =>
    match jsonDecEq x y, jsonListDecEq xs ys with
    | isTrue h1, isTrue h2 => isTrue (by rw [h1, h2])
    | isFalse h1, _ => isFalse (by intro he; cases he; exact h1 rfl)
    | _, isFalse h2 => isFalse (by intro he; cases he; exact h2 rfl)

def jsonFieldsDecEq : (a b : List (String × Json)) → Decidable (a = b)
  | [], [] => isTrue rfl
  | [], _ :: _ => isFalse (fun he => List.noConfusion he)
  | _ :: _, [] => isFalse (fun he => List.noConfusion he)
  | (k, v) :: fs, (l, w) :: gs =>
    match String.decEq k l, jsonDecEq v w, jsonFieldsDecEq fs gs with
    | isTrue h1, isTrue h2, isTrue h3 => isTrue (by rw [h1, h2, h3])
    | isFalse h1, _, _ => isFalse (by intro he; cases he; exact h1 rfl)
    | _, isFalse h2, _ => isFalse (by intro he; cases he; exact h2 rfl)
    | _, _, isFalse h3 => isFalse (by intro he; cases he; exact h3 rfl)

end

instance : DecidableEq Json := jsonDecEq

/-- Hexadecimal digits of `n` padded to 4 digits, as in `\uXXXX` escapes. -/
def hex4 (n : Nat) : String :=
  String.mk [Nat.digitChar (n / 4096 % 16), Nat.digitChar (n / 256 % 16),
    Nat.digitChar (n / 16 % 16), Nat.digitChar (n % 16)]

/-- JSON string escaping as performed by `JSON.stringify` (quote,
backslash, the named control escapes, `\uXXXX` for other controls). -/
def escapeChar (c : Char) : String :=
  if c = '"' then "\\\""
  else if c = '\\' then "\\\\"
  else if c = '\n' then "\\n"
  else if c = '\r' then "\\r"
  else if c = '\t' then "\\t"
  else if c.toNat = 8 then "\\b"
  else if c.toNat = 12 then "\\f"
  else if c.toNat < 32 then "\\u" ++ hex4 c.toNat
  else String.singleton c

def quoteJson (s : String) : String :=
  "\"" ++ String.join (s.toList.map escapeChar) ++ "\""

def commaJoin (parts : List String) : String :=
  String.intercalate "," parts

/-- First value stored under key `p` (JavaScript object property lookup). -/
def findVal (fs : List (String × String)) (p : String) : Option String :=
  match fs with
  | [] => none
  | (k, v) :: rest => if k = p then some v else findVal rest p

/-- ECMA-262 `SerializeJSONObject` with a PropertyList `props`: the members
are enumerated in the order of `props`, keys absent from the object are
skipped, and keys of the object that are not in `props` are dropped. -/
def selectProps (props : List String) (fs : List (String × String)) : List String :=
  props.filterMap (fun p => (findVal fs p).map (fun s => quoteJson p ++ ":" ++ s))

/-! `stringifyWith props` is `JSON.stringify(value, props)`: the property
list filters and orders object members at EVERY nesting depth, while array
elements are always serialized.  (`fieldStrings` serializes each field
value; filtering by `props` happens in `selectProps`.) -/

mutual

def stringifyWith (props : List String) : Json → String
  | .str s => quoteJson s
  | .arr xs => "[" ++ commaJoin (stringifyList props xs) ++ "]"
  | .obj fs => "\x7b" ++ commaJoin (selectProps props (fieldStrings props fs)) ++ "\x7d"

def stringifyList (props : List String) : List Json → List String
  | [] => []
  | x :: xs => stringifyWith props x :: stringifyList props xs

def fieldStrings (props : List String) : List (String × Json) → List (String × String)
  | [] => []
  | (k, v) :: fs => (k, stringifyWith props v) :: fieldStrings props fs

end

/-- `Object.keys` for the objects the hasher is applied to (sections are
always objects). -/
def topLevelKeys : Json → List String
  | .obj fs => fs.map Prod.fst
  | _ => []

/-- Code-point lexicographic order on character lists; on the ASCII keys
of the section schemas this is the UTF-16 code-unit order used by the
default `Array.prototype.sort` comparator. -/
def charListLt : List Char → List Char → Bool
  | [], [] => false
  | [], _ :: _ => true
  | _ :: _, [] => false
  | a :: as, b :: bs =>
    if a.toNat < b.toNat then true
    else if b.toNat < a.toNat then false
    else charListLt as bs

def strLeB (a b : String) : Bool := !(charListLt b.data a.data)

/-- Sorting of the key array (`Object.keys(section).sort()`).  Any correct
sort of a linearly ordered list of strings produces the same list, so the
default JavaScript sort is modelled by an insertion sort. -/
def insertSorted (x : String) : List String → List String
  | [] => [x]
  | y :: ys => if strLeB x y then x :: y :: ys else y :: insertSorted x ys

def sortStrings : List String → List String
  | [] => []
  | k :: ks => insertSorted k (sortStrings ks)

/-- Duplicate removal keeping the first occurrence, as in the construction
of the ECMA-262 PropertyList from a replacer array. -/
def dedupKeepFirst : List String → List String :=
  go []
where
  go (seen : List String) : List String → List String
    | [] => []
    | k :: ks => if k ∈ seen then go seen ks else k :: go (k :: seen) ks

/-- The string actually hashed by `generateVariantHash`:
`JSON.stringify(section, Object.keys(section).sort())`. -/
def jsonStringifySorted (j : Json) : String :=
  stringifyWith (dedupKeepFirst (sortStrings (topLevelKeys j))) j

/-! ### SHA-256 (`crypto.subtle.digest('SHA-256', data)`)

Implemented over `Nat` with explicit reduction modulo `2 ^ 32`. -/

def w32 (n : Nat) : Nat := n % 4294967296

def rotr (x n : Nat) : Nat := w32 ((x >>> n) ||| (x <<< (32 - n)))

def notW (x : Nat) : Nat := 4294967295 - w32 x

def bigSigma0 (x : Nat) : Nat := rotr x 2 ^^^ rotr x 13 ^^^ rotr x 22

def bigSigma1 (x : Nat) : Nat := rotr x 6 ^^^ rotr x 11 ^^^ rotr x 25

def smallSigma0 (x : Nat) : Nat := rotr x 7 ^^^ rotr x 18 ^^^ (w32 x >>> 3)

def smallSigma1 (x : Nat) : Nat := rotr x 17 ^^^ rotr x 19 ^^^ (w32 x >>> 10)

def chFn (x y z : Nat) : Nat := (x &&& y) ^^^ (notW x &&& z)

def majFn (x y z : Nat) : Nat := (x &&& y) ^^^ (x &&& z) ^^^ (y &&& z)

def sha256K : List Nat :=
  [1116352408, 1899447441, 3049323471, 3921009573, 961987163, 1508970993, 2453635748, 2870763221,
   3624381080, 310598401, 607225278, 1426881987, 1925078388, 2162078206, 2614888103, 3248222580,
   3835390401, 4022224774, 264347078, 604807628, 770255983, 1249150122, 1555081692, 1996064986,
   2554220882, 2821834349, 2952996808, 3210313671, 3336571891, 3584528711, 113926993, 338241895,
   666307205, 773529912, 1294757372, 1396182291, 1695183700, 1986661051, 2177026350, 2456956037,
   2730485921, 2820302411, 3259730800, 3345764771, 3516065817, 3600352804, 4094571909, 275423344,
   430227734, 506948616, 659060556, 883997877, 958139571, 1322822218, 1537002063, 1747873779,
   1955562222, 2024104815, 2227730452, 2361852424, 2428436474, 2756734187, 3204031479, 3329325298]

structure H8 where
  a : Nat
  b : Nat
  c : Nat
  d : Nat
  e : Nat
  f : Nat
  g : Nat
  h : Nat

def sha256H0 : H8 :=
  ⟨1779033703, 3144134277, 1013904242, 2773480762, 1359893119, 2600822924, 528734635, 1541459225⟩

/-- `k` bytes of `n`, big endian. -/
def beBytes (k : Nat) (n : Nat) : List Nat :=
  (List.range k).map (fun i => n >>> (8 * (k - 1 - i)) % 256)

/-- SHA-256 message padding: `0x80`, zeros to 56 mod 64, 64-bit bit length. -/
def sha256Pad (msg : List Nat) : List Nat :=
  let len := msg.length
  let zeros := (119 - len % 64) % 64
  msg ++ [128] ++ List.replicate zeros 0 ++ beBytes 8 (len * 8)

def chunk64 (l : List Nat) : List (List Nat) :=
  if l = [] then [] else l.take 64 :: chunk64 (l.drop 64)
termination_by l.length
decreasing_by
  simp only [List.length_drop]
  rename_i hne
  have hpos : 0 < l.length := List.length_pos.mpr hne
  omega

/-- Big-endian 32-bit word from four bytes. -/
def word32Of (bs : List Nat) : Nat :=
  bs.foldl (fun acc b => acc * 256 + b) 0

/-- The 16 initial schedule words of a 64-byte chunk. -/
def chunkWords (chunk : List Nat) : List Nat :=
  (List.range 16).map (fun i => word32Of ((chunk.drop (4 * i)).take 4))

/-- Extend the message schedule from 16 to 64 words. -/
def extendSchedule (ws : List Nat) : Nat → List Nat
  | 0 => ws
  | n + 1 =>
    let m := ws.length
    let nw := w32 (smallSigma1 (ws.getD (m - 2) 0) + ws.getD (m - 7) 0 +
      smallSigma0 (ws.getD (m - 15) 0) + ws.getD (m - 16) 0)
    extendSchedule (ws ++ [nw]) n

def sha256Round (s : H8) (ki : Nat) (wi : Nat) : H8 :=
  let t1 := w32 (s.h + bigSigma1 s.e + chFn s.e s.f s.g + ki + wi)
  let t2 := w32 (bigSigma0 s.a + majFn s.a s.b s.c)
  ⟨w32 (t1 + t2), s.a, s.b, s.c, w32 (s.d + t1), s.e, s.f, s.g⟩

def sha256Chunk (h0 : H8) (chunk : List Nat) : H8 :=
  let ws := extendSchedule (chunkWords chunk) 48
  let s := (sha256K.zip ws).foldl (fun st p => sha256Round st p.1 p.2) h0
  ⟨w32 (h0.a + s.a), w32 (h0.b + s.b), w32 (h0.c + s.c), w32 (h0.d + s.d),
   w32 (h0.e + s.e), w32 (h0.f + s.f), w32 (h0.g + s.g), w32 (h0.h + s.h)⟩

def sha256Bytes (msg : List Nat) : List Nat :=
  let fin := (chunk64 (sha256Pad msg)).foldl sha256Chunk sha256H0
  ([fin.a, fin.b, fin.c, fin.d, fin.e, fin.f, fin.g, fin.h].map (beBytes 4)).flatten

/-- Lowercase two-digit hex of a byte (`b.toString(16).padStart(2, '0')`). -/
def hexByte (b : Nat) : String :=
  String.mk [Nat.digitChar (b / 16 % 16), Nat.digitChar (b % 16)]

def sha256Hex (msg : List Nat) : String :=
  String.join ((sha256Bytes msg).map hexByte)

def utf8Bytes (s : String) : List Nat :=
  s.toUTF8.toList.map (fun b => b.toNat)

/-- `generateVariantHash` from `src/lib/storyboard.ts`: SHA-256 hex digest
of `JSON.stringify(section, Object.keys(section).sort())`. -/
def generateVariantHash (sect : Json) : String :=
  sha256Hex (utf8Bytes (jsonStringifySorted sect))

/-! ### Persona classifier (`src/lib/server/agents/persona.ts`)

`classifyPersona` consults the wall clock through
`context.timeOfDay || new Date().getHours()` (and likewise for the day of
week); the clock is therefore an explicit `Clock` argument of the
embedding, and the JavaScript `||` fallback — which also fires when the
supplied number is `0`, since `0` is falsy — is `jsOrQ`. -/

inductive Persona where
  | athlete
  | commuter
  | outdoor
  | family
deriving DecidableEq

def Persona.toStr : Persona → String
  | .athlete => "athlete"
  | .commuter => "commuter"
  | .outdoor => "outdoor"
  | .family => "family"

def personaOfString (s : String) : Option Persona :=
  if s = "athlete" then some .athlete
  else if s = "commuter" then some .commuter
  else if s = "outdoor" then some .outdoor
  else if s = "family" then some .family
  else none

inductive DeviceType where
  | mobile
  | tablet
  | desktop
deriving DecidableEq

structure SessionData where
  searchTerms : Option String := none
  cartSize : Option ℚ := none
deriving DecidableEq

structure PersonaContext where
  userAgent : Option String := none
  referrer : Option String := none
  utmParams : Option (List (String × String)) := none
  pollResult : Option Persona := none
  deviceType : Option DeviceType := none
  sessionData : Option SessionData := none
  timeOfDay : Option ℚ := none
  dayOfWeek : Option ℚ := none
deriving DecidableEq

structure PersonaResult where
  label : Persona
  confidence : ℚ
  reasoning : String
deriving DecidableEq

structure Scores where
  athlete : ℚ
  commuter : ℚ
  outdoor : ℚ
  family : ℚ
deriving DecidableEq

/-- The clock values `new Date().getHours()` / `new Date().getDay()` would
return at call time. -/
structure Clock where
  hours : ℚ
  day : ℚ

/-- JavaScript `value || fallback` on an optional number: the fallback is
used when the value is absent or `0` (zero is falsy). -/
def jsOrQ (o : Option ℚ) (fb : ℚ) : ℚ :=
  match o with
  | some v => if v = 0 then fb else v
  | none => fb

/-- ASCII lower-casing, matching `String.prototype.toLowerCase` on the
ASCII inputs used throughout. -/
def toLowerStr (s : String) : String := s.map Char.toLower

def listPrefixOf : List Char → List Char → Bool
  | [], _ => true
  | _ :: _, [] => false
  | a :: as, b :: bs => a = b && listPrefixOf as bs

def listContainsSeq (needle : List Char) : List Char → Bool
  | [] => listPrefixOf needle []
  | c :: cs => listPrefixOf needle (c :: cs) || listContainsSeq needle cs

/-- `hay.includes(needle)`. -/
def strIncludes (hay needle : String) : Bool :=
  listContainsSeq needle.toList hay.toList

/-- `maybe?.includes(needle)` — `undefined` is falsy. -/
def optIncludes (o : Option String) (needle : String) : Bool :=
  match o with
  | some s => strIncludes s needle
  | none => false

/-- JavaScript `a || b` on optional strings (the empty string is falsy). -/
def jsStrOr (a b : Option String) : Option String :=
  match a with
  | some s => if s = "" then b else some s
  | none => b

/-- Template interpolation of a possibly-undefined string. -/
def jsToStr : Option String → String
  | some s => s
  | none => "undefined"

/-- `Number.prototype.toFixed(2)` for the nonnegative exact values reached
here: round half away from zero to two decimals. -/
def toFixed2 (q : ℚ) : String :=
  let n := (⌊q * 100 + 1 / 2⌋).toNat
  toString (n / 100) ++ "." ++ String.mk [Nat.digitChar (n / 10 % 10), Nat.digitChar (n % 10)]

/-- UTM parameter analysis block of `classifyPersona`. -/
def utmRules (ctx : PersonaContext) (s : Scores) (r : List String) : Scores × List String :=
  match ctx.utmParams with
  | none => (s, r)
  | some m =>
    let source := (findVal m "utm_source").map toLowerStr
    let _medium := (findVal m "utm_medium").map toLowerStr
    let campaign := (findVal m "utm_campaign").map toLowerStr
    let content := (findVal m "utm_content").map toLowerStr
    let (s, r) :=
      if optIncludes source "fitness" || optIncludes source "gym" ||
          optIncludes source "strava" || optIncludes campaign "sport" then
        ({ s with athlete := s.athlete + 0.4 },
          r ++ ["Fitness source: " ++ jsToStr (jsStrOr source campaign)])
      else (s, r)
    let (s, r) :=
      if optIncludes source "linkedin" || optIncludes campaign "office" ||
          optIncludes campaign "work" || optIncludes content "daily" then
        ({ s with commuter := s.commuter + 0.4 },
          r ++ ["Work/commute source: " ++ jsToStr (jsStrOr source campaign)])
      else (s, r)
    let (s, r) :=
      if optIncludes source "outdoor" || optIncludes source "rei" ||
          optIncludes source "trail" || optIncludes campaign "adventure" then
        ({ s with outdoor := s.outdoor + 0.4 }, r ++ ["Outdoor source detected"])
      else (s, r)
    let (s, r) :=
      if optIncludes source "parent" || optIncludes source "mom" ||
          optIncludes source "family" || optIncludes campaign "kids" then
        ({ s with family := s.family + 0.4 }, r ++ ["Family/parenting source"])
      else (s, r)
    match findVal m "utm_persona" with
    | some up =>
      if up ≠ "" then
        match personaOfString up with
        | some p =>
          (match p with
            | .athlete => { s with athlete := s.athlete + 0.6 }
            | .commuter => { s with commuter := s.commuter + 0.6 }
            | .outdoor => { s with outdoor := s.outdoor + 0.6 }
            | .family => { s with family := s.family + 0.6 },
            r ++ ["UTM persona: " ++ up])
        | none => (s, r)
      else (s, r)
    | none => (s, r)

/-- Time-based heuristics block of `classifyPersona`. -/
def timeRules (hour day : ℚ) (s : Scores) (r : List String) : Scores × List String :=
  let (s, r) :=
    if 5 ≤ hour ∧ hour ≤ 7 then
      ({ s with athlete := s.athlete + 0.2 }, r ++ ["Early morning visitor (athlete pattern)"])
    else (s, r)
  let (s, r) :=
    if (7 ≤ hour ∧ hour ≤ 9) ∨ (17 ≤ hour ∧ hour ≤ 19) then
      if 1 ≤ day ∧ day ≤ 5 then
        ({ s with commuter := s.commuter + 0.3 }, r ++ ["Commute hours on weekday"])
      else (s, r)
    else (s, r)
  if day = 0 ∨ day = 6 then
    ({ s with outdoor := s.outdoor + 0.1, family := s.family + 0.1 }, r ++ ["Weekend visitor"])
  else (s, r)

/-- Device type analysis block of `classifyPersona`. -/
def deviceRules (ctx : PersonaContext) (s : Scores) (r : List String) : Scores × List String :=
  match ctx.deviceType with
  | none => (s, r)
  | some .mobile =>
    ({ s with athlete := s.athlete + 0.1, family := s.family + 0.1 }, r ++ ["Mobile device"])
  | some .desktop =>
    ({ s with commuter := s.commuter + 0.2 }, r ++ ["Desktop (office pattern)"])
  | some .tablet =>
    ({ s with family := s.family + 0.2 }, r ++ ["Tablet device"])

/-- Referrer analysis block of `classifyPersona`. -/
def referrerRules (ctx : PersonaContext) (s : Scores) (r : List String) : Scores × List String :=
  match ctx.referrer with
  | none => (s, r)
  | some refRaw =>
    let referrer := toLowerStr refRaw
    let (s, r) :=
      if strIncludes referrer "runner" || strIncludes referrer "fitness" ||
          strIncludes referrer "gym" || strIncludes referrer "training" then
        ({ s with athlete := s.athlete + 0.3 }, r ++ ["Fitness referrer"])
      else (s, r)
    let (s, r) :=
      if strIncludes referrer "outdoor" || strIncludes referrer "hiking" ||
          strIncludes referrer "camping" || strIncludes referrer "trail" then
        ({ s with outdoor := s.outdoor + 0.3 }, r ++ ["Outdoor referrer"])
      else (s, r)
    let (s, r) :=
      if strIncludes referrer "parent" || strIncludes referrer "mom" ||
          strIncludes referrer "dad" || strIncludes referrer "family" then
        ({ s with family := s.family + 0.3 }, r ++ ["Family/parenting referrer"])
      else (s, r)
    if strIncludes referrer "office" || strIncludes referrer "productivity" ||
        strIncludes referrer "linkedin" then
      ({ s with commuter := s.commuter + 0.3 }, r ++ ["Professional referrer"])
    else (s, r)

/-- Session data analysis block of `classifyPersona` (the search-term rules
add scores without pushing a rationale, exactly as in the source). -/
def sessionRules (ctx : PersonaContext) (s : Scores) (r : List String) : Scores × List String :=
  match ctx.sessionData with
  | none => (s, r)
  | some sd =>
    let s :=
      match sd.searchTerms with
      | none => s
      | some stRaw =>
        let terms := toLowerStr stRaw
        let s := if strIncludes terms "sport" || strIncludes terms "gym" then
          { s with athlete := s.athlete + 0.3 } else s
        let s := if strIncludes terms "office" || strIncludes terms "work" then
          { s with commuter := s.commuter + 0.3 } else s
        let s := if strIncludes terms "hiking" || strIncludes terms "camping" then
          { s with outdoor := s.outdoor + 0.3 } else s
        if strIncludes terms "kids" || strIncludes terms "spill" then
          { s with family := s.family + 0.3 } else s
    match sd.cartSize with
    | some c =>
      if c > 2 then
        ({ s with family := s.family + 0.2 }, r ++ ["Multiple items in cart"])
      else (s, r)
    | none => (s, r)

/-- Stable insertion of a scored persona into a descending list (earlier
entries stay in front of equal scores, matching the stable
`Array.prototype.sort` with comparator `(a, b) => b[1] - a[1]`). -/
def insertDesc (x : Persona × ℚ) : List (Persona × ℚ) → List (Persona × ℚ)
  | [] => [x]
  | y :: ys => if x.2 ≥ y.2 then x :: y :: ys else y :: insertDesc x ys

def sortScoresDesc : List (Persona × ℚ) → List (Persona × ℚ)
  | [] => []
  | x :: xs => insertDesc x (sortScoresDesc xs)

/-- Final scoring step of `classifyPersona`: sort, margin-based confidence,
low-confidence override to the commuter default.  The entry list always has
four elements, so the `getD` defaults are never reached. -/
def finishClassification (s : Scores) (r : List String) : PersonaResult :=
  let entries := [(Persona.athlete, s.athlete), (Persona.commuter, s.commuter),
    (Persona.outdoor, s.outdoor), (Persona.family, s.family)]
  let sorted := sortScoresDesc entries
  let top := sorted.getD 0 (Persona.commuter, 0)
  let second := sorted.getD 1 (Persona.commuter, 0)
  let margin := top.2 - second.2
  let confidence := min 0.95 (max 0.3 margin)
  if confidence < 0.4 ∧ top.1 ≠ Persona.commuter then
    { label := Persona.commuter, confidence := 0.4,
      reasoning := "Low confidence (" ++ toFixed2 confidence ++
        "), defaulting to commuter. " ++ String.intercalate ", " r }
  else
    { label := top.1, confidence := confidence,
      reasoning := if String.intercalate ", " r = "" then "Default classification"
        else String.intercalate ", " r }

/-- `classifyPersona` after the poll shortcut, with the hour and day values
already resolved. -/
def classifyCore (ctx : PersonaContext) (hour day : ℚ) : PersonaResult :=
  let s0 : Scores := ⟨0, 0, 0, 0⟩
  let (s1, r1) := utmRules ctx s0 []
  let (s2, r2) := timeRules hour day s1 r1
  let (s3, r3) := deviceRules ctx s2 r2
  let (s4, r4) := referrerRules ctx s3 r3
  let (s5, r5) := sessionRules ctx s4 r4
  finishClassification { s5 with commuter := s5.commuter + 0.1 } r5

/-- `classifyPersona` from `src/lib/server/agents/persona.ts`. -/
def classifyPersona (ctx : PersonaContext) (clock : Clock) : PersonaResult :=
  match ctx.pollResult with
  | some p => { label := p, confidence := 0.95, reasoning := "Direct user selection via poll" }
  | none =>
    classifyCore ctx (jsOrQ ctx.timeOfDay clock.hours) (jsOrQ ctx.dayOfWeek clock.day)

/-! ### Bandit core (`src/lib/server/bandit.ts`)

This is the server copy of the bandit module, the one imported by the
strategist (`import ... from '../bandit'` in
`src/lib/server/agents/strategist.ts`) and by
`src/lib/server/database.ts`.  `Math.random()` draws come from the stream
`rng` at a cursor `k`; `Math.log` is the explicit parameter `ln`. -/

structure ArmId where
  storyId : String
  sect : String
  variant : String
deriving DecidableEq

structure BanditArm where
  arm : ArmId
  alpha : ℚ
  beta : ℚ
deriving DecidableEq

structure BanditState where
  storyId : String
  sectionKey : String
  variantHash : String
  alpha : ℚ
  beta : ℚ
deriving DecidableEq

/-- `updateBanditState(state, reward)`. -/
def updateBanditState (state : BanditState) (reward : ℚ) : BanditState :=
  { state with alpha := state.alpha + reward, beta := state.beta + (1 - reward) }

/-- `initializeBanditArm(storyId, sectionKey, variantHash)`. -/
def initializeBanditArm (storyId sectionKey variantHash : String) : BanditState :=
  { storyId := storyId, sectionKey := sectionKey, variantHash := variantHash,
    alpha := 1, beta := 1 }

/-- The per-arm effect of `resetSectionBandit`: `{...state, alpha: 1, beta: 1}`. -/
def resetArmState (st : BanditState) : BanditState :=
  { st with alpha := 1, beta := 1 }

/-- Loop of `sampleGammaInteger`: `for (...) sum -= Math.log(Math.random())`. -/
def gammaLoop (ln : ℚ → ℚ) (rng : ℕ → ℚ) : ℕ → ℚ → ℕ → ℚ × ℕ
  | 0, sum, k => (sum, k)
  | n + 1, sum, k => gammaLoop ln rng n (sum - ln (rng k)) (k + 1)

/-- `sampleGammaInteger(shape)` from `src/lib/server/bandit.ts`. -/
def sampleGammaInteger (ln : ℚ → ℚ) (rng : ℕ → ℚ) (shape : ℚ) (k : ℕ) :
    Except String (ℚ × ℕ) :=
  if shape < 1 then .error ("Shape must be >= 1")
  else .ok (gammaLoop ln rng (⌊shape⌋).toNat 0 k)

/-- `sampleBeta(alpha, beta)` from `src/lib/server/bandit.ts` (a thrown
`Shape must be >= 1` from the Gamma sampler would propagate, hence the
explicit error threading). -/
def sampleBeta (ln : ℚ → ℚ) (rng : ℕ → ℚ) (alpha beta : ℚ) (k : ℕ) :
    Except String (ℚ × ℕ) :=
  if alpha ≤ 0 ∨ beta ≤ 0 then .error ("Alpha and beta must be positive")
  else
    match sampleGammaInteger ln rng alpha k with
    | .error e => .error e
    | .ok (x, k1) =>
      match sampleGammaInteger ln rng beta k1 with
      | .error e => .error e
      | .ok (y, k2) =>
        let total := x + y
        if total = 0 then .ok (0.5, k2) else .ok (x / total, k2)

/-- The construction the specification prescribes for `sampleBeta`, written
from the words of the spec: `X` is the sum of `alpha` independent
unit-exponential variates `-ln(U)`, `Y` the sum of `beta` such variates,
the result is `X/(X+Y)`, and `0.5` if both Gamma draws are exactly zero. -/
def sampleBetaSpecConstruction (ln : ℚ → ℚ) (rng : ℕ → ℚ) (a b : ℕ) (k : ℕ) : ℚ × ℕ :=
  let X := ((List.range a).map (fun i => -(ln (rng (k + i))))).sum
  let Y := ((List.range b).map (fun i => -(ln (rng (k + a + i))))).sum
  (if X + Y = 0 then 0.5 else X / (X + Y), k + a + b)

/-- `arms.map(arm => ({arm: arm.arm, sample: sampleBeta(arm.alpha, arm.beta)}))`,
threading the random cursor and propagating thrown errors. -/
def sampleArms (ln : ℚ → ℚ) (rng : ℕ → ℚ) :
    List BanditArm → ℕ → Except String (List (ArmId × ℚ) × ℕ)
  | [], k => .ok ([], k)
  | a :: rest, k =>
    match sampleBeta ln rng a.alpha a.beta k with
    | .error e => .error e
    | .ok (v, k1) =>
      match sampleArms ln rng rest k1 with
      | .error e => .error e
      | .ok (tl, k2) => .ok ((a.arm, v) :: tl, k2)

/-- Reduction step `current.sample > best.sample ? current : best`. -/
def pickGreater (best cur : ArmId × ℚ) : ArmId × ℚ :=
  if cur.2 > best.2 then cur else best

/-- `chooseVariant(arms)` from `src/lib/server/bandit.ts` (Thompson
sampling: empty list throws, a single arm is returned without sampling,
otherwise one Beta sample per arm and a stable `reduce` by strictly
greater sample). -/
def chooseVariant (ln : ℚ → ℚ) (rng : ℕ → ℚ) (arms : List BanditArm) (k : ℕ) :
    Except String (ArmId × ℕ) :=
  match arms with
  | [] => .error ("No arms available")
  | [a] => .ok (a.arm, k)
  | a0 :: a1 :: rest =>
    match sampleBeta ln rng a0.alpha a0.beta k with
    | .error e => .error e
    | .ok (s0, k1) =>
      match sampleArms ln rng (a1 :: rest) k1 with
      | .error e => .error e
      | .ok (tl, k2) => .ok ((tl.foldl pickGreater (a0.arm, s0)).1, k2)

/-! ### Database model (`src/lib/server/database.ts`)

The Supabase tables used by the strategist, as in-memory lists.  `ts`
values and `Date.now()` are rationals (milliseconds); `db.now` is the
current time used both for stamping inserted events and for the trailing
cutoff of `getConversionEvents`.  The free-form `meta` payload of events
is not modelled: no embedded code path reads it back. -/

structure EventRec where
  storyId : String
  persona : String
  sectionKey : String
  variantHash : String
  event : String
  ts : ℚ
deriving DecidableEq

structure DB where
  banditStates : List BanditState
  events : List EventRec
  now : ℚ
deriving DecidableEq

def keyMatches (s : BanditState) (storyId sectionKey variantHash : String) : Bool :=
  s.storyId = storyId && s.sectionKey = sectionKey && s.variantHash = variantHash

/-- `getBanditState`: select a single row by the primary-key triple. -/
def getBanditState (db : DB) (storyId sectionKey variantHash : String) : Option BanditState :=
  db.banditStates.find? (fun s => keyMatches s storyId sectionKey variantHash)

/-- `updateBanditState` in `database.ts` (imported as `saveBanditState` by
the strategist): upsert with `onConflict: 'story_id,section_key,variant_hash'`. -/
def saveBanditState (db : DB) (st : BanditState) : DB :=
  if db.banditStates.any (fun r => keyMatches r st.storyId st.sectionKey st.variantHash) then
    let replaced := db.banditStates.map
      (fun r => if keyMatches r st.storyId st.sectionKey st.variantHash then st else r)
    { db with banditStates := replaced }
  else
    { db with banditStates := db.banditStates ++ [st] }

/-- `getAllBanditStates(storyId, sectionKey)`. -/
def getAllBanditStates (db : DB) (storyId sectionKey : String) : List BanditState :=
  db.banditStates.filter (fun s => s.storyId = storyId && s.sectionKey = sectionKey)

/-- `getBanditStatesForStory(storyId)`. -/
def getBanditStatesForStory (db : DB) (storyId : String) : List BanditState :=
  db.banditStates.filter (fun s => s.storyId = storyId)

/-- `trackEvent`: append-only insert into the events table, stamped with
the current time. -/
def trackEvent (db : DB) (storyId persona sectionKey variantHash event : String) : DB :=
  { db with events := db.events ++
      [{ storyId := storyId, persona := persona, sectionKey := sectionKey,
         variantHash := variantHash, event := event, ts := db.now }] }

/-- `getConversionEvents(storyId, sectionKey, variantHash, timeoutMinutes)`:
count of events for the arm with kind in `['ctaClick']` and timestamp at or
after `now - timeoutMinutes * 60 * 1000`. -/
def getConversionEvents (db : DB) (storyId sectionKey variantHash : String)
    (timeoutMinutes : ℚ) : ℕ :=
  (db.events.filter (fun e =>
    e.storyId = storyId && e.sectionKey = sectionKey && e.variantHash = variantHash &&
    decide (db.now - timeoutMinutes * 60 * 1000 ≤ e.ts) &&
    ["ctaClick"].contains e.event)).length

/-! ### Experiment strategist (`src/lib/server/agents/strategist.ts`) -/

structure VariantChoice where
  sectionKey : String
  variantHash : String
  sect : Json
  confidence : ℚ
  isNew : Bool
deriving DecidableEq

structure StrategistContext where
  storyId : String
  persona : Persona
  sectionKey : String
  availableVariants : List Json

/-- Strategist-side world: the database plus the random-stream cursor. -/
structure World where
  db : DB
  k : ℕ
deriving DecidableEq

/-- `ensureBanditState`: read, initialize with the uniform prior and save
if absent. -/
def ensureBanditState (db : DB) (storyId sectionKey variantHash : String) :
    BanditState × DB :=
  match getBanditState db storyId sectionKey variantHash with
  | some st => (st, db)
  | none =>
    let st := initializeBanditArm storyId sectionKey variantHash
    (st, saveBanditState db st)

/-- The arm-building loop of the multi-candidate path of
`chooseOptimalVariant`: hash every candidate, lazily materialize its state,
and collect `{arm, alpha, beta}` entries. -/
def buildArms (storyId sectionKey : String) :
    List Json → DB → List BanditArm × DB
  | [], db => ([], db)
  | v :: rest, db =>
    match getBanditState db storyId sectionKey (generateVariantHash v) with
    | some s =>
      ({ arm := { storyId := storyId, sect := sectionKey, variant := generateVariantHash v },
         alpha := s.alpha, beta := s.beta } ::
          (buildArms storyId sectionKey rest db).1,
       (buildArms storyId sectionKey rest db).2)
    | none =>
      ({ arm := { storyId := storyId, sect := sectionKey, variant := generateVariantHash v },
         alpha := (initializeBanditArm storyId sectionKey (generateVariantHash v)).alpha,
         beta := (initializeBanditArm storyId sectionKey (generateVariantHash v)).beta } ::
          (buildArms storyId sectionKey rest
            (saveBanditState db (initializeBanditArm storyId sectionKey
              (generateVariantHash v)))).1,
       (buildArms storyId sectionKey rest
         (saveBanditState db (initializeBanditArm storyId sectionKey
           (generateVariantHash v)))).2)

/-- `chooseOptimalVariant(context)` from
`src/lib/server/agents/strategist.ts`.  The observability `meta` of the
tracked selection event is not modelled (it is write-only). -/
def chooseOptimalVariant (ln : ℚ → ℚ) (rng : ℕ → ℚ) (ctx : StrategistContext)
    (w : World) : Except String (VariantChoice × World) :=
  match ctx.availableVariants with
  | [] => .error ("No variants available for section " ++ ctx.sectionKey)
  | [v] =>
    .ok ({ sectionKey := ctx.sectionKey, variantHash := generateVariantHash v, sect := v,
           confidence := 1, isNew := false },
         { db := (ensureBanditState w.db ctx.storyId ctx.sectionKey
             (generateVariantHash v)).2,
           k := w.k })
  | v0 :: v1 :: vs =>
    let arms := (buildArms ctx.storyId ctx.sectionKey (v0 :: v1 :: vs) w.db).1
    let db1 := (buildArms ctx.storyId ctx.sectionKey (v0 :: v1 :: vs) w.db).2
    match chooseVariant ln rng arms w.k with
    | .error e => .error e
    | .ok (chosen, k1) =>
    match (arms.findIdx? (fun a => a.arm.variant = chosen.variant)).bind
        (fun i => (v0 :: v1 :: vs)[i]?) with
    | none => .error ("Could not find chosen variant")
    | some chosenVariant =>
      let found := arms.find? (fun a => a.arm.variant = chosen.variant)
      let confidence :=
        match found with
        | some a => a.alpha / (a.alpha + a.beta)
        | none => 0.5
      let isNew :=
        match found with
        | some a => decide (a.alpha = 1) && decide (a.beta = 1)
        | none => false
      let db2 := trackEvent db1 ctx.storyId ctx.persona.toStr ctx.sectionKey
        chosen.variant "variantSelected"
      .ok ({ sectionKey := ctx.sectionKey, variantHash := chosen.variant,
             sect := chosenVariant, confidence := confidence, isNew := isNew },
           { db := db2, k := k1 })

/-- `recordConversion(storyId, persona, sectionKey, variantHash, reward)`. -/
def recordConversion (storyId : String) (persona : Persona)
    (sectionKey variantHash : String) (reward : ℚ) (db : DB) : DB :=
  let db1 :=
    match getBanditState db storyId sectionKey variantHash with
    | none =>
      saveBanditState db
        (updateBanditState (initializeBanditArm storyId sectionKey variantHash) reward)
    | some st => saveBanditState db (updateBanditState st reward)
  trackEvent db1 storyId persona.toStr sectionKey variantHash "conversion"

/-- `processTimeouts(storyId, timeoutMinutes)`: for every arm of the story,
count trailing-window conversion events and apply a reward of `0` when the
count is zero. -/
def processTimeouts (db : DB) (storyId : String) (timeoutMinutes : ℚ) : DB :=
  (getBanditStatesForStory db storyId).foldl
    (fun db st =>
      if getConversionEvents db storyId st.sectionKey st.variantHash timeoutMinutes = 0 then
        saveBanditState db (updateBanditState st 0)
      else db)
    db

/-- `resetSectionBandit(storyId, sectionKey)`. -/
def resetSectionBandit (db : DB) (storyId sectionKey : String) : DB :=
  let db1 := (getAllBanditStates db storyId sectionKey).foldl
    (fun db st => saveBanditState db (resetArmState st)) db
  trackEvent db1 storyId "commuter" sectionKey "" "banditReset"

/-! ### Storyboard assembler (`src/lib/server/assembleStoryboard.ts`)

Slots are resolved independently (`Promise.all` fan-out); the per-slot
resolution — `chooseOptimalVariant` run against the shared store, together
with any storage error it throws — is abstracted as the `choose`
argument. -/

structure Storyboard where
  version : ℚ
  brand : Json
  persona : Persona
  sections : List Json
deriving DecidableEq

structure StoryboardRecord where
  json : Storyboard
deriving DecidableEq

/-- Field lookup on a JSON object. -/
def jsonField (j : Json) (key : String) : Option Json :=
  match j with
  | .obj fs => (fs.find? (fun kv => kv.1 = key)).map Prod.snd
  | _ => none

/-- `section.key` of a schema-conforming section. -/
def sectionKeyOf (s : Json) : String :=
  match jsonField s "key" with
  | some (.str k) => k
  | _ => ""

/-- Content-addressed deduplication, first occurrence wins. -/
def dedupeByHash : List String → List Json → List Json
  | _, [] => []
  | seen, s :: rest =>
    let h := generateVariantHash s
    if h ∈ seen then dedupeByHash seen rest
    else s :: dedupeByHash (h :: seen) rest

/-- `getSectionVariants(sectionKey, allStoryboards, baseSection)`: the base
section followed by each saved version of the slot, deduplicated by
variant hash. -/
def getSectionVariants (sectionKey : String) (allStoryboards : List StoryboardRecord)
    (baseSection : Json) : List Json :=
  dedupeByHash []
    (baseSection :: allStoryboards.filterMap
      (fun record => record.json.sections.find? (fun s => sectionKeyOf s = sectionKey)))

/-- JavaScript object property assignment `m[k] = v` on a string map kept
in insertion order. -/
def recordSet (m : List (String × String)) (k v : String) : List (String × String) :=
  if m.any (fun p => p.1 = k) then m.map (fun p => if p.1 = k then (k, v) else p)
  else m ++ [(k, v)]

def recordGet (m : List (String × String)) (k : String) : Option String :=
  findVal m k

/-- `assembleStoryboard(storyId, persona, baseStoryboard)` given the
already-fetched list of saved storyboard versions and the per-slot
resolver.  A failed slot falls back to its base section with an empty
variant hash, and empty hashes are not recorded in the tracking map. -/
def assembleStoryboard (choose : StrategistContext → Except String VariantChoice)
    (storyId : String) (persona : Persona) (base : Storyboard)
    (allStoryboards : List StoryboardRecord) :
    Storyboard × List (String × String) :=
  let results := base.sections.map (fun sect =>
    let availableVariants := getSectionVariants (sectionKeyOf sect) allStoryboards sect
    match choose { storyId := storyId, persona := persona,
                   sectionKey := sectionKeyOf sect,
                   availableVariants := availableVariants } with
    | .ok c => (sectionKeyOf sect, c.sect, c.variantHash)
    | .error _ => (sectionKeyOf sect, sect, ""))
  let assembledSections := results.map (fun r => r.2.1)
  let sectionVariantHashes := results.foldl
    (fun m r => if r.2.2 ≠ "" then recordSet m r.1 r.2.2 else m) []
  ({ base with persona := persona, sections := assembledSections }, sectionVariantHashes)

/-- The per-slot resolution list of `assembleStoryboard`, written without
intermediate bindings: for each base section, the slot key together with
the resolved section and its variant hash (the base section and an empty
hash when the resolver fails). -/
def slotResults (choose : StrategistContext → Except String VariantChoice)
    (storyId : String) (persona : Persona) (base : Storyboard)
    (allStoryboards : List StoryboardRecord) : List (String × Json × String) :=
  base.sections.map (fun sect =>
    match choose (StrategistContext.mk storyId persona (sectionKeyOf sect)
        (getSectionVariants (sectionKeyOf sect) allStoryboards sect)) with
    | .ok c => (sectionKeyOf sect, c.sect, c.variantHash)
    | .error _ => (sectionKeyOf sect, sect, ""))

/-! ### Reward-sequence model for the arm-state invariants

`resetSectionBandit` resets every arm of a slot to `alpha = beta = 1`
(`resetArmState` above is its per-arm effect); `updateBanditState` applies
one binary reward.  A history of one arm is a list of these operations. -/

inductive BanditOp where
  | update (reward : ℚ)
  | reset
deriving DecidableEq

def applyBanditOp (st : BanditState) : BanditOp → BanditState
  | .update r => updateBanditState st r
  | .reset => resetArmState st

/-- Number of rewards applied since the most recent reset (or since
initialization when no reset occurred). -/
def rewardsSinceLastReset (ops : List BanditOp) : ℕ :=
  ops.foldl (fun n op => match op with | .update _ => n + 1 | .reset => 0) 0

/-- Zero values used as `reduce`/`getD` defaults in the selector lemmas. -/
def armDefault : ArmId × ℚ := (⟨"", "", ""⟩, 0)

def banditArmDefault : BanditArm := ⟨⟨"", "", ""⟩, 0, 0⟩

/-- The hero section of the repository test fixture
(`src/lib/__tests__/storyboard.test.ts`), in field insertion order. -/
def heroA : Json :=
  .obj [("key", .str ("hero")), ("type", .str ("hero")),
    ("headline", .str ("Test Headline")), ("sub", .str ("Test subheadline")),
    ("cta", .arr [.obj [("text", .str ("Get Started")), ("goal", .str ("signup"))]]),
    ("demoIdea", .str ("Demo idea"))]

/-- The same hero section with a different nested CTA text. -/
def heroB : Json :=
  .obj [("key", .str ("hero")), ("type", .str ("hero")),
    ("headline", .str ("Test Headline")), ("sub", .str ("Test subheadline")),
    ("cta", .arr [.obj [("text", .str ("Buy Now")), ("goal", .str ("signup"))]]),
    ("demoIdea", .str ("Demo idea"))]

/-- A signal bundle carrying the literal values 0 (midnight) and 0 (Sunday). -/
def ctxZeroTime : PersonaContext := { timeOfDay := some 0, dayOfWeek := some 0 }

lemma banditFold_invariant (ops : List BanditOp)
    (hr : ∀ r : ℚ, BanditOp.update r ∈ ops → r = 0 ∨ r = 1) :
    ∀ (st : BanditState) (n : ℕ), 1 ≤ st.alpha → 1 ≤ st.beta →
      st.alpha + st.beta - 2 = (n : ℚ) →
      1 ≤ (ops.foldl applyBanditOp st).alpha ∧
      1 ≤ (ops.foldl applyBanditOp st).beta ∧
      (ops.foldl applyBanditOp st).alpha + (ops.foldl applyBanditOp st).beta - 2 =
        ((ops.foldl (fun n op => match op with | .update _ => n + 1 | .reset => 0) n : ℕ) : ℚ) := by
  induction ops with
  | nil => intro st n h1 h2 h3; exact ⟨h1, h2, h3⟩
  | cons op rest ih =>
    intro st n h1 h2 h3
    have hrest : ∀ r : ℚ, BanditOp.update r ∈ rest → r = 0 ∨ r = 1 := by
      intro r hm; exact hr r (List.mem_cons_of_mem _ hm)
    cases op with
    | update r =>
      have hr01 : r = 0 ∨ r = 1 := hr r (List.mem_cons_self _ _)
      simp only [List.foldl_cons, applyBanditOp]
      refine ih hrest _ (n + 1) ?_ ?_ ?_
      · show 1 ≤ st.alpha + r
        rcases hr01 with h | h <;> rw [h] <;> linarith
      · show 1 ≤ st.beta + (1 - r)
        rcases hr01 with h | h <;> rw [h] <;> linarith
      · show st.alpha + r + (st.beta + (1 - r)) - 2 = ((n + 1 : ℕ) : ℚ)
        push_cast
        linarith
    | reset =>
      simp only [List.foldl_cons, applyBanditOp]
      refine ih hrest _ 0 ?_ ?_ ?_
      · show 1 ≤ (1 : ℚ)
        norm_num
      · show 1 ≤ (1 : ℚ)
        norm_num
      · show (1 : ℚ) + 1 - 2 = ((0 : ℕ) : ℚ)
        norm_num

/-- Claim C9: every arm state reachable from `initializeBanditArm` by
binary-reward `updateBanditState` applications and `resetSectionBandit`
resets keeps `alpha ≥ 1` and `beta ≥ 1`, and the number of rewards applied
since the last initialization or reset equals `alpha + beta - 2`. -/
theorem banditState_invariants (storyId sectionKey variantHash : String)
    (ops : List BanditOp)
    (hr : ∀ r : ℚ, BanditOp.update r ∈ ops → r = 0 ∨ r = 1) :
    1 ≤ (ops.foldl applyBanditOp (initializeBanditArm storyId sectionKey variantHash)).alpha ∧
    1 ≤ (ops.foldl applyBanditOp (initializeBanditArm storyId sectionKey variantHash)).beta ∧
    (ops.foldl applyBanditOp (initializeBanditArm storyId sectionKey variantHash)).alpha +
      (ops.foldl applyBanditOp (initializeBanditArm storyId sectionKey variantHash)).beta - 2 =
      (rewardsSinceLastReset ops : ℚ) := by
  have h := banditFold_invariant ops hr (initializeBanditArm storyId sectionKey variantHash) 0
    (by simp [initializeBanditArm]) (by simp [initializeBanditArm])
    (by simp [initializeBanditArm]; norm_num)
  exact ⟨h.1, h.2.1, h.2.2⟩

theorem banditState_invariants_witness :
    (∀ r : ℚ, BanditOp.update r ∈
        [BanditOp.update 1, BanditOp.update 0, BanditOp.reset, BanditOp.update 1] → r = 0 ∨ r = 1) ∧
    1 ≤ ([BanditOp.update 1, BanditOp.update 0, BanditOp.reset, BanditOp.update 1].foldl
        applyBanditOp (initializeBanditArm ("s") ("hero") ("h"))).alpha ∧
    1 ≤ ([BanditOp.update 1, BanditOp.update 0, BanditOp.reset, BanditOp.update 1].foldl
        applyBanditOp (initializeBanditArm ("s") ("hero") ("h"))).beta ∧
    ([BanditOp.update 1, BanditOp.update 0, BanditOp.reset, BanditOp.update 1].foldl
        applyBanditOp (initializeBanditArm ("s") ("hero") ("h"))).alpha +
      ([BanditOp.update 1, BanditOp.update 0, BanditOp.reset, BanditOp.update 1].foldl
        applyBanditOp (initializeBanditArm ("s") ("hero") ("h"))).beta - 2 =
      (rewardsSinceLastReset
        [BanditOp.update 1, BanditOp.update 0, BanditOp.reset, BanditOp.update 1] : ℚ) := by
  have hr : ∀ r : ℚ, BanditOp.update r ∈
      [BanditOp.update 1, BanditOp.update 0, BanditOp.reset, BanditOp.update 1] → r = 0 ∨ r = 1 := by
    intro r hm
    simp only [List.mem_cons, List.not_mem_nil, or_false] at hm
    rcases hm with h | h | h | h
    · right; exact BanditOp.update.inj h
    · left; exact BanditOp.update.inj h
    · exact absurd h (by intro hc; exact BanditOp.noConfusion hc)
    · right; exact BanditOp.update.inj h
  exact ⟨hr, banditState_invariants ("s") ("hero") ("h") _ hr⟩

/-! ### Claim C2: the Gamma-ratio construction of `sampleBeta` -/

lemma gammaLoop_eq_sum (ln : ℚ → ℚ) (rng : ℕ → ℚ) :
    ∀ (n : ℕ) (sum : ℚ) (k : ℕ),
      gammaLoop ln rng n sum k =
        (sum + ((List.range n).map (fun i => -(ln (rng (k + i))))).sum, k + n) := by
  intro n
  induction n with
  | zero => intro sum k; simp [gammaLoop]
  | succ m ih =>
    intro sum k
    rw [gammaLoop, ih]
    simp only [Prod.mk.injEq]
    constructor
    · rw [List.range_succ_eq_map, List.map_cons, List.map_map, List.sum_cons]
      have hm : (List.map ((fun i => -(ln (rng (k + i)))) ∘ Nat.succ) (List.range m)) =
          List.map (fun i => -(ln (rng (k + 1 + i)))) (List.range m) := by
        refine List.map_congr_left ?_
        intro i _
        simp only [Function.comp_apply]
        have hk : k + Nat.succ i = k + 1 + i := by omega
        rw [hk]
      rw [hm]
      simp only [Nat.add_zero]
      linarith
    · omega

/-- Claim C2: for positive integer shapes, `sampleBeta` from
`src/lib/server/bandit.ts` computes exactly the Gamma-ratio construction
prescribed by the spec — `X` a sum of `alpha` unit-exponential variates
`-ln(U)`, `Y` a sum of `beta` such variates, result `X/(X+Y)`, and `0.5`
when both Gamma draws are exactly zero. -/
theorem sampleBeta_is_gamma_ratio (ln : ℚ → ℚ) (rng : ℕ → ℚ) (a b : ℕ) (k : ℕ)
    (ha : 1 ≤ a) (hb : 1 ≤ b) :
    sampleBeta ln rng (a : ℚ) (b : ℚ) k = .ok (sampleBetaSpecConstruction ln rng a b k) := by
  have hfa : ((⌊(a : ℚ)⌋).toNat) = a := by
    rw [Int.floor_natCast]; exact Int.toNat_natCast a
  have hfb : ((⌊(b : ℚ)⌋).toNat) = b := by
    rw [Int.floor_natCast]; exact Int.toNat_natCast b
  have hga : ¬((a : ℚ) < 1) := by exact_mod_cast not_lt.mpr (by exact_mod_cast ha)
  have hgb : ¬((b : ℚ) < 1) := by exact_mod_cast not_lt.mpr (by exact_mod_cast hb)
  have hpa : ¬((a : ℚ) ≤ 0 ∨ (b : ℚ) ≤ 0) := by
    push_neg
    constructor
    · exact_mod_cast Nat.lt_of_lt_of_le Nat.zero_lt_one ha
    · exact_mod_cast Nat.lt_of_lt_of_le Nat.zero_lt_one hb
  have h1 : sampleGammaInteger ln rng (a : ℚ) k =
      .ok (((List.range a).map (fun i => -(ln (rng (k + i))))).sum, k + a) := by
    rw [sampleGammaInteger, if_neg hga, hfa, gammaLoop_eq_sum, zero_add]
  have h2 : sampleGammaInteger ln rng (b : ℚ) (k + a) =
      .ok (((List.range b).map (fun i => -(ln (rng (k + a + i))))).sum, k + a + b) := by
    rw [sampleGammaInteger, if_neg hgb, hfb, gammaLoop_eq_sum, zero_add]
  simp only [sampleBeta, if_neg hpa, h1, h2, sampleBetaSpecConstruction]
  by_cases htot : ((List.range a).map (fun i => -(ln (rng (k + i))))).sum +
      ((List.range b).map (fun i => -(ln (rng (k + a + i))))).sum = 0
  · rw [if_pos htot, if_pos htot]
  · rw [if_neg htot, if_neg htot]

theorem sampleBeta_is_gamma_ratio_witness :
    (1 ≤ 2 ∧ 1 ≤ 1) ∧
    sampleBeta (fun q => q - 1) (fun _ => 1 / 2) ((2 : ℕ) : ℚ) ((1 : ℕ) : ℚ) 0 =
      .ok (sampleBetaSpecConstruction (fun q => q - 1) (fun _ => 1 / 2) 2 1 0) :=
  ⟨⟨by norm_num, le_refl 1⟩,
    sampleBeta_is_gamma_ratio (fun q => q - 1) (fun _ => 1 / 2) 2 1 0 (by norm_num) (le_refl 1)⟩

/-! ### Claim C4: the Thompson arm selector -/

/-- The stable `reduce` of the selector returns the first entry attaining
the maximal sample: every sample is at most the chosen one, and every
earlier sample is strictly below it. -/
lemma foldl_pickGreater_first_max (l : List (ArmId × ℚ)) (acc : ArmId × ℚ) :
    ∃ i, i < (acc :: l).length ∧
      l.foldl pickGreater acc = (acc :: l).getD i armDefault ∧
      (∀ j, j < (acc :: l).length →
        ((acc :: l).getD j armDefault).2 ≤ ((acc :: l).getD i armDefault).2) ∧
      (∀ j, j < i → ((acc :: l).getD j armDefault).2 < ((acc :: l).getD i armDefault).2) := by
  induction l generalizing acc with
  | nil =>
    refine ⟨0, by simp, rfl, ?_, ?_⟩
    · intro j hj
      have hj0 : j = 0 := by simpa using Nat.lt_one_iff.mp (by simpa using hj)
      rw [hj0]
    · intro j hj
      exact absurd hj (Nat.not_lt_zero j)
  | cons b l ih =>
    rw [List.foldl_cons]
    by_cases hb : b.2 > acc.2
    · have hpick : pickGreater acc b = b := by rw [pickGreater, if_pos hb]
      rw [hpick]
      obtain ⟨i, hi, heq, hmax, hfirst⟩ := ih b
      refine ⟨i + 1, by simpa using Nat.succ_lt_succ (by simpa using hi), ?_, ?_, ?_⟩
      · exact heq
      · intro j hj
        cases j with
        | zero =>
          show acc.2 ≤ ((b :: l).getD i armDefault).2
          exact le_trans (le_of_lt hb) (hmax 0 (by simp))
        | succ j' =>
          show ((b :: l).getD j' armDefault).2 ≤ ((b :: l).getD i armDefault).2
          exact hmax j' (by simpa using Nat.lt_of_succ_lt_succ (by simpa using hj))
      · intro j hj
        cases j with
        | zero =>
          show acc.2 < ((b :: l).getD i armDefault).2
          exact lt_of_lt_of_le hb (hmax 0 (by simp))
        | succ j' =>
          show ((b :: l).getD j' armDefault).2 < ((b :: l).getD i armDefault).2
          exact hfirst j' (Nat.lt_of_succ_lt_succ hj)
    · have hpick : pickGreater acc b = acc := by rw [pickGreater, if_neg hb]
      have hble : b.2 ≤ acc.2 := le_of_not_lt hb
      rw [hpick]
      obtain ⟨i, hi, heq, hmax, hfirst⟩ := ih acc
      cases i with
      | zero =>
        refine ⟨0, by simp, heq, ?_, ?_⟩
        · intro j hj
          cases j with
          | zero => exact le_refl _
          | succ j' =>
            cases j' with
            | zero => exact hble
            | succ j2 =>
              show ((l).getD j2 armDefault).2 ≤ acc.2
              exact hmax (j2 + 1) (by simpa using Nat.lt_of_succ_lt_succ (by simpa using hj))
        · intro j hj
          exact absurd hj (Nat.not_lt_zero j)
      | succ i' =>
        have hi' : i' < l.length := by simpa using Nat.lt_of_succ_lt_succ (by simpa using hi)
        refine ⟨i' + 2, by simpa using Nat.succ_lt_succ (Nat.succ_lt_succ hi'), ?_, ?_, ?_⟩
        · exact heq
        · intro j hj
          cases j with
          | zero =>
            show acc.2 ≤ (l.getD i' armDefault).2
            exact hmax 0 (by simp)
          | succ j' =>
            cases j' with
            | zero =>
              show b.2 ≤ (l.getD i' armDefault).2
              exact le_trans hble (hmax 0 (by simp))
            | succ j2 =>
              show (l.getD j2 armDefault).2 ≤ (l.getD i' armDefault).2
              exact hmax (j2 + 1) (by simpa using Nat.lt_of_succ_lt_succ (by simpa using hj))
        · intro j hj
          cases j with
          | zero =>
            show acc.2 < (l.getD i' armDefault).2
            exact hfirst 0 (Nat.succ_pos i')
          | succ j' =>
            cases j' with
            | zero =>
              show b.2 < (l.getD i' armDefault).2
              exact lt_of_le_of_lt hble (hfirst 0 (Nat.succ_pos i'))
            | succ j2 =>
              show (l.getD j2 armDefault).2 < (l.getD i' armDefault).2
              exact hfirst (j2 + 1) (by omega)

/-- Successful sampling draws one Beta sample per arm, pairing each sample
with the arm identifier at the same position. -/
lemma sampleArms_ok_pairing (ln : ℚ → ℚ) (rng : ℕ → ℚ) :
    ∀ (arms : List BanditArm) (k : ℕ) (samples : List (ArmId × ℚ)) (k1 : ℕ),
      sampleArms ln rng arms k = .ok (samples, k1) →
      samples.length = arms.length ∧
      ∀ i, i < arms.length →
        (samples.getD i armDefault).1 = (arms.getD i banditArmDefault).arm := by
  intro arms
  induction arms with
  | nil =>
    intro k samples k1 h
    rw [sampleArms] at h
    injection h with h1
    injection h1 with h2 h3
    rw [← h2]
    exact ⟨rfl, fun i hi => absurd hi (Nat.not_lt_zero i)⟩
  | cons a rest ih =>
    intro k samples k1 h
    rw [sampleArms] at h
    cases hsb : sampleBeta ln rng a.alpha a.beta k with
    | error e => rw [hsb] at h; dsimp only at h; simp at h
    | ok p =>
      obtain ⟨v, kv⟩ := p
      rw [hsb] at h
      dsimp only at h
      cases hsa : sampleArms ln rng rest kv with
      | error e => rw [hsa] at h; dsimp only at h; simp at h
      | ok q =>
        obtain ⟨tl, k2⟩ := q
        rw [hsa] at h
        dsimp only at h
        injection h with h1
        injection h1 with h2 h3
        obtain ⟨hlen, hpair⟩ := ih kv tl k2 hsa
        constructor
        · rw [← h2]; simpa using hlen
        · intro i hi
          rw [← h2]
          cases i with
          | zero => rfl
          | succ i' =>
            show (tl.getD i' armDefault).1 = (rest.getD i' banditArmDefault).arm
            exact hpair i' (by simpa using Nat.lt_of_succ_lt_succ (by simpa using hi))

/-- Claim C4: `chooseVariant` throws on an empty arm list; returns the sole
arm of a singleton list without consuming any random draw; and otherwise
draws one Beta sample per arm and returns the identifier of the arm whose
sample is strictly greatest, resolving ties to the earliest arm of the
input list. -/
theorem chooseVariant_spec (ln : ℚ → ℚ) (rng : ℕ → ℚ) :
    (∀ k, chooseVariant ln rng [] k = .error ("No arms available")) ∧
    (∀ a k, chooseVariant ln rng [a] k = .ok (a.arm, k)) ∧
    (∀ a0 a1 rest k samples k1,
      sampleArms ln rng (a0 :: a1 :: rest) k = .ok (samples, k1) →
      ∃ i, i < samples.length ∧
        chooseVariant ln rng (a0 :: a1 :: rest) k = .ok ((samples.getD i armDefault).1, k1) ∧
        samples.length = (a0 :: a1 :: rest).length ∧
        (∀ j, j < (a0 :: a1 :: rest).length →
          (samples.getD j armDefault).1 = ((a0 :: a1 :: rest).getD j banditArmDefault).arm) ∧
        (∀ j, j < samples.length →
          (samples.getD j armDefault).2 ≤ (samples.getD i armDefault).2) ∧
        (∀ j, j < i → (samples.getD j armDefault).2 < (samples.getD i armDefault).2)) := by
  refine ⟨fun k => rfl, fun a k => rfl, ?_⟩
  intro a0 a1 rest k samples k1 h
  have hinv := h
  rw [sampleArms] at hinv
  cases hsb : sampleBeta ln rng a0.alpha a0.beta k with
  | error e => rw [hsb] at hinv; dsimp only at hinv; simp at hinv
  | ok p =>
    obtain ⟨v, kv⟩ := p
    rw [hsb] at hinv
    dsimp only at hinv
    cases hsa : sampleArms ln rng (a1 :: rest) kv with
    | error e => rw [hsa] at hinv; dsimp only at hinv; simp at hinv
    | ok q =>
      obtain ⟨tl, k2⟩ := q
      rw [hsa] at hinv
      dsimp only at hinv
      injection hinv with h1
      injection h1 with h2 h3
      obtain ⟨i, hi, heq, hmax, hfirst⟩ := foldl_pickGreater_first_max tl (a0.arm, v)
      obtain ⟨hlen, hpair⟩ := sampleArms_ok_pairing ln rng (a0 :: a1 :: rest) k samples k1 h
      refine ⟨i, ?_, ?_, hlen, hpair, ?_, ?_⟩
      · rw [← h2]; simpa using hi
      · rw [chooseVariant, hsb]
        dsimp only
        rw [hsa]
        dsimp only
        rw [heq, h2, h3]
      · intro j hj
        rw [← h2] at hj ⊢
        exact hmax j (by simpa using hj)
      · intro j hj
        rw [← h2]
        exact hfirst j hj

lemma gammaLoop_one (ln : ℚ → ℚ) (rng : ℕ → ℚ) (sum : ℚ) (k : ℕ) :
    gammaLoop ln rng 1 sum k = (sum - ln (rng k), k + 1) := by
  rw [gammaLoop, gammaLoop]

lemma sampleBeta_one_one (ln : ℚ → ℚ) (rng : ℕ → ℚ) (k : ℕ)
    (h : ¬(0 - ln (rng k) + (0 - ln (rng (k + 1))) = 0)) :
    sampleBeta ln rng 1 1 k =
      .ok ((0 - ln (rng k)) / (0 - ln (rng k) + (0 - ln (rng (k + 1)))), k + 2) := by
  have hf : ((⌊(1 : ℚ)⌋).toNat) = 1 := by norm_num
  rw [sampleBeta, if_neg (by norm_num)]
  rw [sampleGammaInteger, if_neg (by norm_num), hf, gammaLoop_one]
  dsimp only
  rw [sampleGammaInteger, if_neg (by norm_num), hf, gammaLoop_one]
  dsimp only
  rw [if_neg h]

theorem chooseVariant_spec_witness :
    (chooseVariant (fun q => q) (fun _ => 1 / 2) [] 0 = .error ("No arms available")) ∧
    (chooseVariant (fun q => q) (fun _ => 1 / 2) [⟨⟨"s", "hero", "v0"⟩, 1, 1⟩] 5 =
      .ok (ArmId.mk ("s") ("hero") ("v0"), 5)) ∧
    (∃ i, i < 2 ∧
      chooseVariant (fun q => q) (fun _ => 1 / 2)
        [⟨⟨"s", "hero", "v0"⟩, 1, 1⟩, ⟨⟨"s", "hero", "v1"⟩, 1, 1⟩] 0 =
        .ok ((([((ArmId.mk ("s") ("hero") ("v0")), (1 / 2 : ℚ)),
          ((ArmId.mk ("s") ("hero") ("v1")), (1 / 2 : ℚ))].getD i armDefault).1), 4)) := by
  have hspec := chooseVariant_spec (fun q => q) (fun _ => 1 / 2)
  refine ⟨hspec.1 0, hspec.2.1 ⟨⟨"s", "hero", "v0"⟩, 1, 1⟩ 5, ?_⟩
  have hsb0 : sampleBeta (fun q => q) (fun _ => (1 : ℚ) / 2) 1 1 0 = .ok (1 / 2, 2) := by
    rw [sampleBeta_one_one (fun q => q) (fun _ => (1 : ℚ) / 2) 0 (by norm_num)]
    norm_num
  have hsb2 : sampleBeta (fun q => q) (fun _ => (1 : ℚ) / 2) 1 1 2 = .ok (1 / 2, 4) := by
    rw [sampleBeta_one_one (fun q => q) (fun _ => (1 : ℚ) / 2) 2 (by norm_num)]
    norm_num
  have hsam : sampleArms (fun q => q) (fun _ => 1 / 2)
      [⟨⟨"s", "hero", "v0"⟩, 1, 1⟩, ⟨⟨"s", "hero", "v1"⟩, 1, 1⟩] 0 =
      .ok ([((ArmId.mk ("s") ("hero") ("v0")), (1 / 2 : ℚ)),
        ((ArmId.mk ("s") ("hero") ("v1")), (1 / 2 : ℚ))], 4) := by
    rw [sampleArms]
    dsimp only
    rw [hsb0]
    dsimp only
    rw [sampleArms]
    dsimp only
    rw [hsb2]
    dsimp only
    rw [sampleArms]
  obtain ⟨i, hi, heq, hlen, _, _, _⟩ :=
    (hspec.2.2) ⟨⟨"s", "hero", "v0"⟩, 1, 1⟩ ⟨⟨"s", "hero", "v1"⟩, 1, 1⟩ [] 0
      [((ArmId.mk ("s") ("hero") ("v0")), (1 / 2 : ℚ)),
        ((ArmId.mk ("s") ("hero") ("v1")), (1 / 2 : ℚ))] 4 hsam
  exact ⟨i, by simpa using hi, heq⟩

/-! ### Claim C1: the content hasher -/

lemma charListLt_asymm : ∀ l1 l2 : List Char,
    charListLt l1 l2 = true → charListLt l2 l1 = false := by
  intro l1
  induction l1 with
  | nil =>
    intro l2 h
    cases l2 with
    | nil => simp [charListLt] at h
    | cons b bs => rfl
  | cons a as ih =>
    intro l2 h
    cases l2 with
    | nil => simp [charListLt] at h
    | cons b bs =>
      rw [charListLt] at h ⊢
      by_cases hab : a.toNat < b.toNat
      · have hba : ¬ b.toNat < a.toNat := by omega
        simp [hab, hba]
      · by_cases hba : b.toNat < a.toNat
        · simp [hab, hba] at h
        · simp only [hab, hba, if_false] at h ⊢
          exact ih bs h

lemma charListLt_eq_of_not_lt : ∀ l1 l2 : List Char,
    charListLt l1 l2 = false → charListLt l2 l1 = false → l1 = l2 := by
  intro l1
  induction l1 with
  | nil =>
    intro l2 h1 h2
    cases l2 with
    | nil => rfl
    | cons b bs => simp [charListLt] at h1
  | cons a as ih =>
    intro l2 h1 h2
    cases l2 with
    | nil => simp [charListLt] at h2
    | cons b bs =>
      rw [charListLt] at h1 h2
      by_cases hab : a.toNat < b.toNat
      · simp [hab] at h1
      · by_cases hba : b.toNat < a.toNat
        · simp [hab, hba] at h2
        · simp only [hab, hba, if_false] at h1 h2
          have hn : a.toNat = b.toNat := by omega
          have hc : a = b :=
            Char.eq_of_val_eq (UInt32.eq_of_val_eq (Fin.eq_of_val_eq hn))
          rw [hc, ih bs h1 h2]

lemma charListLt_trans : ∀ l1 l2 l3 : List Char,
    charListLt l1 l2 = true → charListLt l2 l3 = true → charListLt l1 l3 = true := by
  intro l1
  induction l1 with
  | nil =>
    intro l2 l3 h1 h2
    cases l2 with
    | nil => simp [charListLt] at h1
    | cons b bs =>
      cases l3 with
      | nil => simp [charListLt] at h2
      | cons c cs => rfl
  | cons a as ih =>
    intro l2 l3 h1 h2
    cases l2 with
    | nil => simp [charListLt] at h1
    | cons b bs =>
      cases l3 with
      | nil => simp [charListLt] at h2
      | cons c cs =>
        rw [charListLt] at h1 h2 ⊢
        by_cases hab : a.toNat < b.toNat
        · by_cases hbc : b.toNat < c.toNat
          · simp [show a.toNat < c.toNat by omega]
          · by_cases hcb : c.toNat < b.toNat
            · simp [hbc, hcb] at h2
            · simp [show a.toNat < c.toNat by omega]
        · by_cases hba : b.toNat < a.toNat
          · simp [hab, hba] at h1
          · by_cases hbc : b.toNat < c.toNat
            · simp [show a.toNat < c.toNat by omega]
            · by_cases hcb : c.toNat < b.toNat
              · simp [hbc, hcb] at h2
              · simp only [hab, hba, if_false] at h1
                simp only [hbc, hcb, if_false] at h2
                simp only [show ¬ a.toNat < c.toNat by omega,
                  show ¬ c.toNat < a.toNat by omega, if_false]
                exact ih bs cs h1 h2

lemma strLeB_total (a b : String) : strLeB a b = true ∨ strLeB b a = true := by
  rw [strLeB, strLeB, Bool.not_eq_true', Bool.not_eq_true']
  by_cases h : charListLt b.data a.data = true
  · right
    exact charListLt_asymm _ _ h
  · left
    exact Bool.eq_false_iff.mpr h

lemma strLeB_trans (a b c : String) (h1 : strLeB a b = true) (h2 : strLeB b c = true) :
    strLeB a c = true := by
  rw [strLeB, Bool.not_eq_true'] at h1 h2 ⊢
  by_cases hfin : charListLt c.data a.data = true
  · by_cases hbc : charListLt b.data c.data = true
    · have hba : charListLt b.data a.data = true := charListLt_trans _ _ _ hbc hfin
      rw [hba] at h1
      exact absurd h1 (by simp)
    · have heq : b.data = c.data :=
        charListLt_eq_of_not_lt _ _ (Bool.eq_false_iff.mpr hbc) h2
      rw [← heq] at hfin
      rw [hfin] at h1
      exact absurd h1 (by simp)
  · exact Bool.eq_false_iff.mpr hfin

lemma strLeB_antisymm (a b : String) (h1 : strLeB a b = true) (h2 : strLeB b a = true) :
    a = b := by
  rw [strLeB, Bool.not_eq_true'] at h1 h2
  exact congrArg String.mk (charListLt_eq_of_not_lt a.data b.data h2 h1)

lemma insertSorted_perm (x : String) (l : List String) :
    (insertSorted x l).Perm (x :: l) := by
  induction l with
  | nil => exact List.Perm.refl _
  | cons y ys ih =>
    rw [insertSorted]
    by_cases h : strLeB x y = true
    · rw [if_pos h]
    · rw [if_neg h]
      exact (List.Perm.cons y ih).trans (List.Perm.swap x y ys)

lemma mem_insertSorted {z x : String} {l : List String}
    (h : z ∈ insertSorted x l) : z = x ∨ z ∈ l := by
  induction l with
  | nil => simpa [insertSorted] using h
  | cons y ys ih =>
    rw [insertSorted] at h
    by_cases hxy : strLeB x y = true
    · rw [if_pos hxy] at h
      rcases List.mem_cons.mp h with h1 | h1
      · exact Or.inl h1
      · exact Or.inr h1
    · rw [if_neg hxy] at h
      rcases List.mem_cons.mp h with h1 | h1
      · exact Or.inr (by rw [h1]; exact List.mem_cons_self _ _)
      · rcases ih h1 with h2 | h2
        · exact Or.inl h2
        · exact Or.inr (List.mem_cons_of_mem _ h2)

lemma insertSorted_sorted (x : String) (l : List String)
    (h : List.Pairwise (fun a b => strLeB a b = true) l) :
    List.Pairwise (fun a b => strLeB a b = true) (insertSorted x l) := by
  induction l with
  | nil => simp [insertSorted]
  | cons y ys ih =>
    rw [insertSorted]
    by_cases hxy : strLeB x y = true
    · rw [if_pos hxy]
      refine List.Pairwise.cons ?_ h
      intro z hz
      rcases List.mem_cons.mp hz with h1 | h1
      · rw [h1]; exact hxy
      · exact strLeB_trans x y z hxy (List.rel_of_pairwise_cons h h1)
    · rw [if_neg hxy]
      have hyx : strLeB y x = true := by
        rcases strLeB_total x y with h1 | h1
        · exact absurd h1 hxy
        · exact h1
      refine List.Pairwise.cons ?_ (ih (List.Pairwise.of_cons h))
      intro z hz
      rcases mem_insertSorted hz with h1 | h1
      · rw [h1]; exact hyx
      · exact List.rel_of_pairwise_cons h h1

lemma sortStrings_perm (l : List String) : (sortStrings l).Perm l := by
  induction l with
  | nil => exact List.Perm.refl _
  | cons k ks ih =>
    rw [sortStrings]
    exact (insertSorted_perm k (sortStrings ks)).trans (List.Perm.cons k ih)

lemma sortStrings_sorted (l : List String) :
    List.Pairwise (fun a b => strLeB a b = true) (sortStrings l) := by
  induction l with
  | nil => simp [sortStrings]
  | cons k ks ih => exact insertSorted_sorted k (sortStrings ks) ih

/-- A permutation of the key list sorts to the same list. -/
lemma sortStrings_eq_of_perm (l1 l2 : List String) (h : l1.Perm l2) :
    sortStrings l1 = sortStrings l2 := by
  haveI : IsAntisymm String (fun a b => strLeB a b = true) := ⟨strLeB_antisymm⟩
  exact List.eq_of_perm_of_sorted
    (((sortStrings_perm l1).trans h).trans (sortStrings_perm l2).symm)
    (sortStrings_sorted l1) (sortStrings_sorted l2)

lemma fieldStrings_eq_map (props : List String) (fs : List (String × Json)) :
    fieldStrings props fs = fs.map (fun kv => (kv.1, stringifyWith props kv.2)) := by
  induction fs with
  | nil => rfl
  | cons kv rest ih =>
    obtain ⟨k, v⟩ := kv
    rw [fieldStrings, ih]
    rfl

lemma findVal_mem {l : List (String × String)} {p v : String}
    (h : findVal l p = some v) : (p, v) ∈ l := by
  induction l with
  | nil => simp [findVal] at h
  | cons kv rest ih =>
    obtain ⟨k, w⟩ := kv
    rw [findVal] at h
    by_cases hk : k = p
    · rw [if_pos hk] at h
      injection h with hv
      rw [← hk, ← hv]
      exact List.mem_cons_self _ _
    · rw [if_neg hk] at h
      exact List.mem_cons_of_mem _ (ih h)

lemma findVal_eq_some_of_mem {l : List (String × String)} {p v : String}
    (hnd : (l.map Prod.fst).Nodup) (h : (p, v) ∈ l) : findVal l p = some v := by
  induction l with
  | nil => simp at h
  | cons kv rest ih =>
    obtain ⟨k, w⟩ := kv
    rcases List.mem_cons.mp h with h1 | h1
    · injection h1 with hk hv
      rw [findVal, if_pos (by rw [hk]), hv]
    · have hk : k ≠ p := by
        intro hc
        have hmem : p ∈ rest.map Prod.fst := List.mem_map_of_mem Prod.fst h1
        rw [List.map_cons] at hnd
        exact (List.nodup_cons.mp hnd).1 (hc ▸ hmem)
      rw [findVal, if_neg hk]
      exact ih (List.nodup_cons.mp (by rw [List.map_cons] at hnd; exact hnd)).2 h1

lemma findVal_eq_none {l : List (String × String)} {p : String}
    (h : p ∉ l.map Prod.fst) : findVal l p = none := by
  induction l with
  | nil => rfl
  | cons kv rest ih =>
    obtain ⟨k, w⟩ := kv
    rw [List.map_cons, List.mem_cons] at h
    push_neg at h
    rw [findVal, if_neg (fun hc => h.1 (by rw [hc]))]
    exact ih h.2

lemma findVal_perm {l1 l2 : List (String × String)} (hperm : l1.Perm l2)
    (hnd : (l1.map Prod.fst).Nodup) (p : String) : findVal l1 p = findVal l2 p := by
  have hnd2 : (l2.map Prod.fst).Nodup := (hperm.map Prod.fst).nodup_iff.mp hnd
  cases h : findVal l1 p with
  | some v =>
    exact (findVal_eq_some_of_mem hnd2 (hperm.mem_iff.mp (findVal_mem h))).symm
  | none =>
    have hp : p ∉ l1.map Prod.fst := by
      intro hc
      obtain ⟨⟨k, w⟩, hmem, hk⟩ := List.mem_map.mp hc
      dsimp at hk
      rw [hk] at hmem
      rw [findVal_eq_some_of_mem hnd hmem] at h
      exact Option.noConfusion h
    exact (findVal_eq_none (fun hc => hp ((hperm.map Prod.fst).mem_iff.mpr hc))).symm

/-- Claim C1 (amended, positive half): `generateVariantHash` is invariant
under reordering of top-level fields — two Sections that are
field-for-field identical up to top-level key order hash identically. -/
theorem generateVariantHash_top_level_perm (fs gs : List (String × Json))
    (hperm : fs.Perm gs) (hnd : (fs.map Prod.fst).Nodup) :
    generateVariantHash (.obj fs) = generateVariantHash (.obj gs) := by
  have hkeys : sortStrings (fs.map Prod.fst) = sortStrings (gs.map Prod.fst) :=
    sortStrings_eq_of_perm _ _ (hperm.map Prod.fst)
  have hfperm : (fieldStrings (dedupKeepFirst (sortStrings (fs.map Prod.fst))) fs).Perm
      (fieldStrings (dedupKeepFirst (sortStrings (fs.map Prod.fst))) gs) := by
    rw [fieldStrings_eq_map, fieldStrings_eq_map]
    exact hperm.map _
  have hfnd : ((fieldStrings (dedupKeepFirst (sortStrings (fs.map Prod.fst))) fs).map
      Prod.fst).Nodup := by
    rw [fieldStrings_eq_map, List.map_map]
    simpa using hnd
  unfold generateVariantHash
  refine congrArg (fun str => sha256Hex (utf8Bytes str)) ?_
  unfold jsonStringifySorted
  have htop1 : topLevelKeys (Json.obj fs) = fs.map Prod.fst := rfl
  have htop2 : topLevelKeys (Json.obj gs) = gs.map Prod.fst := rfl
  rw [htop1, htop2, ← hkeys]
  rw [stringifyWith, stringifyWith]
  refine congrArg (fun t => "\x7b" ++ commaJoin t ++ "\x7d") ?_
  unfold selectProps
  refine List.filterMap_congr ?_
  intro p _
  rw [findVal_perm hfperm hfnd p]

/-- Claim C1 (counterexample): two valid hero Sections that differ in a
nested field — the text of their CTA — produce the SAME hash, because the
sorted top-level key list is passed to `JSON.stringify` as a replacer
array, which filters object keys at every nesting depth and therefore
drops the `text`/`goal` fields of the nested CTA objects. -/
theorem generateVariantHash_nested_collision :
    heroA ≠ heroB ∧ generateVariantHash heroA = generateVariantHash heroB := by
  constructor
  · decide
  · unfold generateVariantHash
    refine congrArg (fun str => sha256Hex (utf8Bytes str)) ?_
    decide

theorem generateVariantHash_top_level_perm_witness :
    (([(("key" : String), Json.str ("hero")), (("type" : String), Json.str ("hero"))] :
        List (String × Json)).Perm
      [(("type" : String), Json.str ("hero")), (("key" : String), Json.str ("hero"))]) ∧
    (([(("key" : String), Json.str ("hero")), (("type" : String), Json.str ("hero"))].map
        Prod.fst).Nodup) ∧
    generateVariantHash (.obj [(("key" : String), Json.str ("hero")),
        (("type" : String), Json.str ("hero"))]) =
      generateVariantHash (.obj [(("type" : String), Json.str ("hero")),
        (("key" : String), Json.str ("hero"))]) := by
  have hperm : ([(("key" : String), Json.str ("hero")), (("type" : String), Json.str ("hero"))] :
      List (String × Json)).Perm
      [(("type" : String), Json.str ("hero")), (("key" : String), Json.str ("hero"))] :=
    List.Perm.swap _ _ _
  have hnd : (([(("key" : String), Json.str ("hero")),
      (("type" : String), Json.str ("hero"))].map Prod.fst).Nodup) := by
    decide
  exact ⟨hperm, hnd, generateVariantHash_top_level_perm _ _ hperm hnd⟩

/-! ### Claims C7 and C8: the persona classifier -/

lemma persona_athlete_ne_commuter : Persona.athlete ≠ Persona.commuter := by
  intro h
  exact Persona.noConfusion h

/-- Claim C7 (counterexample): with the system clock at 6:00 on a
Wednesday, `classifyPersona` on the empty signal bundle returns confidence
0.4 (the low-confidence override fires because the early-morning heuristic
puts the athlete score on top), not the 0.3 floor the claim states. -/
theorem classifyPersona_empty_not_floor :
    (classifyPersona {} ⟨6, 3⟩).label = Persona.commuter ∧
    (classifyPersona {} ⟨6, 3⟩).confidence ≠ 3 / 10 := by
  have h0 : classifyPersona {} ⟨6, 3⟩ = classifyCore {} 6 3 := rfl
  rw [h0]
  norm_num [classifyCore, utmRules, timeRules, deviceRules, referrerRules, sessionRules,
    finishClassification, sortScoresDesc, insertDesc, min_def, max_def,
    persona_athlete_ne_commuter]

set_option maxHeartbeats 1600000 in
/-- Claim C7 (amended): `classifyPersona` is a total function of its
inputs (it cannot throw), and on the empty signal bundle it always returns
the default segment `commuter`; but the confidence is not fixed at the 0.3
floor — it depends on the wall clock consulted through the time fallback:
it is 0.4 when exactly one of the early-morning window (5 ≤ hour ≤ 7) and
the weekday-commute window fires, and 0.3 otherwise. -/
theorem classifyPersona_empty_amended (hour day : ℚ) :
    (classifyPersona {} ⟨hour, day⟩).label = Persona.commuter ∧
    (classifyPersona {} ⟨hour, day⟩).confidence =
      (if 5 ≤ hour ∧ hour ≤ 7 then
        (if ((7 ≤ hour ∧ hour ≤ 9) ∨ (17 ≤ hour ∧ hour ≤ 19)) ∧ (1 ≤ day ∧ day ≤ 5)
          then 3 / 10 else 2 / 5)
      else
        (if ((7 ≤ hour ∧ hour ≤ 9) ∨ (17 ≤ hour ∧ hour ≤ 19)) ∧ (1 ≤ day ∧ day ≤ 5)
          then 2 / 5 else 3 / 10)) := by
  have h0 : classifyPersona {} ⟨hour, day⟩ = classifyCore {} hour day := rfl
  rw [h0]
  by_cases hA : 5 ≤ hour ∧ hour ≤ 7 <;>
    by_cases hC : (7 ≤ hour ∧ hour ≤ 9) ∨ (17 ≤ hour ∧ hour ≤ 19) <;>
    by_cases hW : 1 ≤ day ∧ day ≤ 5 <;>
    by_cases hE : day = 0 ∨ day = 6
  all_goals try (rcases hW with ⟨hW1, hW2⟩; rcases hE with hE | hE <;>
    (exfalso; rw [hE] at hW1 hW2; norm_num at hW1 hW2))
  all_goals constructor <;>
    norm_num [classifyCore, utmRules, timeRules, deviceRules, referrerRules,
      sessionRules, finishClassification, sortScoresDesc, insertDesc,
      hA, hC, hW, hE, min_def, max_def, persona_athlete_ne_commuter]

/-- Claim C8 (counterexample): a signal bundle that DOES carry both a
`timeOfDay` and a `dayOfWeek` value — namely `0` (midnight) and `0`
(Sunday) — still yields clock-dependent results, because `timeOfDay || new
Date().getHours()` treats the falsy `0` as absent: with the clock at 12:00
Wednesday the result differs from the clock at 6:00 Wednesday. -/
theorem classifyPersona_zero_time_clock_dependent :
    classifyPersona ctxZeroTime ⟨12, 3⟩ ≠ classifyPersona ctxZeroTime ⟨6, 3⟩ := by
  have h1 : (classifyPersona ctxZeroTime ⟨12, 3⟩).confidence = 3 / 10 := by
    have h0 : classifyPersona ctxZeroTime ⟨12, 3⟩ = classifyCore ctxZeroTime 12 3 := rfl
    rw [h0]
    norm_num [ctxZeroTime, classifyCore, utmRules, timeRules, deviceRules, referrerRules,
      sessionRules, finishClassification, sortScoresDesc, insertDesc, min_def, max_def,
      persona_athlete_ne_commuter]
  have h2 : (classifyPersona ctxZeroTime ⟨6, 3⟩).confidence = 2 / 5 := by
    have h0 : classifyPersona ctxZeroTime ⟨6, 3⟩ = classifyCore ctxZeroTime 6 3 := rfl
    rw [h0]
    norm_num [ctxZeroTime, classifyCore, utmRules, timeRules, deviceRules, referrerRules,
      sessionRules, finishClassification, sortScoresDesc, insertDesc, min_def, max_def,
      persona_athlete_ne_commuter]
  intro h
  rw [h, h2] at h1
  norm_num at h1

/-- Claim C8 (amended): `classifyPersona` is deterministic given identical
signal bundles whenever the bundle supplies a NONZERO `timeOfDay` and a
NONZERO `dayOfWeek` — the system clock is then never consulted, so two
calls under different clocks return identical results.  (A zero value is
falsy, so midnight or Sunday fall back to the clock; see the
counterexample.) -/
theorem classifyPersona_deterministic_given_nonzero_time
    (ctx : PersonaContext) (h d : ℚ) (c1 c2 : Clock)
    (hh : ctx.timeOfDay = some h) (hh0 : h ≠ 0)
    (hd : ctx.dayOfWeek = some d) (hd0 : d ≠ 0) :
    classifyPersona ctx c1 = classifyPersona ctx c2 := by
  cases hp : ctx.pollResult with
  | some p => simp only [classifyPersona, hp]
  | none =>
    simp only [classifyPersona, hp]
    rw [hh, hd]
    simp only [jsOrQ]
    rw [if_neg hh0, if_neg hh0, if_neg hd0, if_neg hd0]

theorem classifyPersona_deterministic_given_nonzero_time_witness :
    ((⟨none, none, none, none, none, none, some 12, some 3⟩ :
        PersonaContext).timeOfDay = some 12 ∧ (12 : ℚ) ≠ 0 ∧
      (⟨none, none, none, none, none, none, some 12, some 3⟩ :
        PersonaContext).dayOfWeek = some 3 ∧ (3 : ℚ) ≠ 0) ∧
    classifyPersona ⟨none, none, none, none, none, none, some 12, some 3⟩ ⟨1, 1⟩ =
      classifyPersona ⟨none, none, none, none, none, none, some 12, some 3⟩ ⟨23, 6⟩ :=
  ⟨⟨rfl, by norm_num, rfl, by norm_num⟩,
    classifyPersona_deterministic_given_nonzero_time _ 12 3 ⟨1, 1⟩ ⟨23, 6⟩
      rfl (by norm_num) rfl (by norm_num)⟩

/-! ### Store lemmas: upsert and lookup over the `bandit_state` table -/

lemma keyMatches_iff (r : BanditState) (sid k h : String) :
    keyMatches r sid k h = true ↔ (r.storyId = sid ∧ r.sectionKey = k ∧ r.variantHash = h) := by
  simp [keyMatches, Bool.and_eq_true, decide_eq_true_eq, and_assoc]

lemma keyMatches_self (st : BanditState) :
    keyMatches st st.storyId st.sectionKey st.variantHash = true := by
  simp [keyMatches]

lemma find?_replace_self (rows : List BanditState) (st : BanditState)
    (hany : rows.any (fun r => keyMatches r st.storyId st.sectionKey st.variantHash) = true) :
    (rows.map (fun r =>
      if keyMatches r st.storyId st.sectionKey st.variantHash = true then st else r)).find?
        (fun s => keyMatches s st.storyId st.sectionKey st.variantHash) = some st := by
  induction rows with
  | nil => simp at hany
  | cons r rows ih =>
    rw [List.any_cons, Bool.or_eq_true] at hany
    by_cases hr : keyMatches r st.storyId st.sectionKey st.variantHash = true
    · rw [List.map_cons, if_pos hr]
      simp only [List.find?_cons]
      rw [keyMatches_self st]
    · rw [List.map_cons, if_neg hr]
      simp only [List.find?_cons]
      rw [Bool.eq_false_iff.mpr hr]
      exact ih (hany.resolve_left hr)

lemma find?_replace_other (rows : List BanditState) (st : BanditState) (sid k h : String)
    (hne : ¬(st.storyId = sid ∧ st.sectionKey = k ∧ st.variantHash = h)) :
    (rows.map (fun r =>
      if keyMatches r st.storyId st.sectionKey st.variantHash = true then st else r)).find?
        (fun s => keyMatches s sid k h) = rows.find? (fun s => keyMatches s sid k h) := by
  have hstq : ¬ keyMatches st sid k h = true := by
    rw [keyMatches_iff]
    exact hne
  induction rows with
  | nil => rfl
  | cons r rows ih =>
    by_cases hr : keyMatches r st.storyId st.sectionKey st.variantHash = true
    · have hrq : ¬ keyMatches r sid k h = true := by
        rw [keyMatches_iff]
        obtain ⟨h1, h2, h3⟩ := (keyMatches_iff r _ _ _).mp hr
        intro hc
        exact hne (by rw [← h1, ← h2, ← h3]; exact hc)
      rw [List.map_cons, if_pos hr]
      simp only [List.find?_cons]
      rw [Bool.eq_false_iff.mpr hstq, Bool.eq_false_iff.mpr hrq]
      exact ih
    · rw [List.map_cons, if_neg hr]
      by_cases hrq : keyMatches r sid k h = true
      · simp only [List.find?_cons]
        rw [hrq]
      · simp only [List.find?_cons]
        rw [Bool.eq_false_iff.mpr hrq]
        exact ih

/-- After an upsert, the row stored under the upserted key is the new
state. -/
lemma getBanditState_save_self (db : DB) (st : BanditState) :
    getBanditState (saveBanditState db st) st.storyId st.sectionKey st.variantHash = some st := by
  rw [saveBanditState]
  by_cases hany : db.banditStates.any
      (fun r => keyMatches r st.storyId st.sectionKey st.variantHash) = true
  · rw [if_pos hany]
    show (db.banditStates.map (fun r =>
      if keyMatches r st.storyId st.sectionKey st.variantHash = true then st else r)).find?
        (fun s => keyMatches s st.storyId st.sectionKey st.variantHash) = some st
    exact find?_replace_self db.banditStates st hany
  · rw [if_neg hany]
    show (db.banditStates ++ [st]).find?
      (fun s => keyMatches s st.storyId st.sectionKey st.variantHash) = some st
    rw [List.find?_append]
    have hrows : db.banditStates.find?
        (fun s => keyMatches s st.storyId st.sectionKey st.variantHash) = none := by
      rw [List.find?_eq_none]
      intro x hx hpx
      exact hany (List.any_eq_true.mpr ⟨x, hx, hpx⟩)
    rw [hrows]
    simp only [Option.or, List.find?_cons]
    rw [keyMatches_self st]

/-- Upserting one key leaves every other key unchanged. -/
lemma getBanditState_save_other (db : DB) (st : BanditState) (sid k h : String)
    (hne : ¬(st.storyId = sid ∧ st.sectionKey = k ∧ st.variantHash = h)) :
    getBanditState (saveBanditState db st) sid k h = getBanditState db sid k h := by
  have hstq : ¬ keyMatches st sid k h = true := by
    rw [keyMatches_iff]
    exact hne
  rw [saveBanditState]
  by_cases hany : db.banditStates.any
      (fun r => keyMatches r st.storyId st.sectionKey st.variantHash) = true
  · rw [if_pos hany]
    show (db.banditStates.map (fun r =>
      if keyMatches r st.storyId st.sectionKey st.variantHash = true then st else r)).find?
        (fun s => keyMatches s sid k h) = getBanditState db sid k h
    rw [find?_replace_other db.banditStates st sid k h hne]
    rfl
  · rw [if_neg hany]
    show (db.banditStates ++ [st]).find? (fun s => keyMatches s sid k h) =
      getBanditState db sid k h
    rw [List.find?_append]
    cases hfind : db.banditStates.find? (fun s => keyMatches s sid k h) with
    | some r =>
      simp only [Option.or]
      rw [getBanditState, hfind]
    | none =>
      simp only [Option.or]
      rw [getBanditState, hfind]
      simp only [List.find?_cons, List.find?_nil]
      rw [Bool.eq_false_iff.mpr hstq]

lemma saveBanditState_events (db : DB) (st : BanditState) :
    (saveBanditState db st).events = db.events ∧ (saveBanditState db st).now = db.now := by
  rw [saveBanditState]
  by_cases hany : db.banditStates.any
      (fun r => keyMatches r st.storyId st.sectionKey st.variantHash) = true
  · rw [if_pos hany]
    exact ⟨rfl, rfl⟩
  · rw [if_neg hany]
    exact ⟨rfl, rfl⟩

/-! ### Claim C3: `chooseOptimalVariant` -/

lemma buildArms_preserves (sid key : String) :
    ∀ (vs : List Json) (db : DB) (h : String) (st : BanditState),
      getBanditState db sid key h = some st →
      getBanditState (buildArms sid key vs db).2 sid key h = some st := by
  intro vs
  induction vs with
  | nil => intro db h st hst; exact hst
  | cons v rest ih =>
    intro db h st hst
    rw [buildArms]
    cases hv : getBanditState db sid key (generateVariantHash v) with
    | some s =>
      dsimp only
      exact ih db h st hst
    | none =>
      dsimp only
      refine ih _ h st ?_
      have hne : ¬((initializeBanditArm sid key (generateVariantHash v)).storyId = sid ∧
          (initializeBanditArm sid key (generateVariantHash v)).sectionKey = key ∧
          (initializeBanditArm sid key (generateVariantHash v)).variantHash = h) := by
        intro hc
        have hh : generateVariantHash v = h := hc.2.2
        rw [hh] at hv
        rw [hv] at hst
        exact Option.noConfusion hst
      rw [getBanditState_save_other db _ sid key h hne]
      exact hst

lemma buildArms_sound (sid key : String) :
    ∀ (vs : List Json) (db : DB) (a : BanditArm), a ∈ (buildArms sid key vs db).1 →
      a.arm.storyId = sid ∧ a.arm.sect = key ∧
      ∃ st, getBanditState (buildArms sid key vs db).2 sid key a.arm.variant = some st ∧
        st.alpha = a.alpha ∧ st.beta = a.beta := by
  intro vs
  induction vs with
  | nil => intro db a ha; simp [buildArms] at ha
  | cons v rest ih =>
    intro db a ha
    rw [buildArms] at ha ⊢
    cases hv : getBanditState db sid key (generateVariantHash v) with
    | some s =>
      rw [hv] at ha
      dsimp only at ha ⊢
      rcases List.mem_cons.mp ha with h1 | h1
      · rw [h1]
        refine ⟨rfl, rfl, s, ?_, rfl, rfl⟩
        exact buildArms_preserves sid key rest db (generateVariantHash v) s hv
      · exact ih db a h1
    | none =>
      rw [hv] at ha
      dsimp only at ha ⊢
      rcases List.mem_cons.mp ha with h1 | h1
      · rw [h1]
        refine ⟨rfl, rfl, initializeBanditArm sid key (generateVariantHash v), ?_, rfl, rfl⟩
        exact buildArms_preserves sid key rest _ (generateVariantHash v) _
          (getBanditState_save_self db (initializeBanditArm sid key (generateVariantHash v)))
      · exact ih _ a h1

lemma buildArms_length (sid key : String) :
    ∀ (vs : List Json) (db : DB), (buildArms sid key vs db).1.length = vs.length := by
  intro vs
  induction vs with
  | nil => intro db; rfl
  | cons v rest ih =>
    intro db
    rw [buildArms]
    cases hv : getBanditState db sid key (generateVariantHash v) with
    | some s => dsimp only; simp [ih]
    | none => dsimp only; simp [ih]

/-- Arms of one variant hash carry the same Beta parameters: the loop
initializes a key at most once and never overwrites a present key. -/
lemma buildArms_same_variant (sid key : String) (vs : List Json) (db : DB)
    (a b : BanditArm) (ha : a ∈ (buildArms sid key vs db).1)
    (hb : b ∈ (buildArms sid key vs db).1) (hv : a.arm.variant = b.arm.variant) :
    a.alpha = b.alpha ∧ a.beta = b.beta := by
  obtain ⟨_, _, sta, hsta, hsa1, hsa2⟩ := buildArms_sound sid key vs db a ha
  obtain ⟨_, _, stb, hstb, hsb1, hsb2⟩ := buildArms_sound sid key vs db b hb
  rw [hv] at hsta
  rw [hsta] at hstb
  injection hstb with hst
  rw [← hsa1, ← hsa2, ← hsb1, ← hsb2, hst]
  exact ⟨rfl, rfl⟩

/-- A successful `chooseVariant` returns the identifier of one of its
arms. -/
lemma chooseVariant_ok_mem (ln : ℚ → ℚ) (rng : ℕ → ℚ) (arms : List BanditArm)
    (k : ℕ) (cid : ArmId) (k1 : ℕ) (h : chooseVariant ln rng arms k = .ok (cid, k1)) :
    ∃ a ∈ arms, a.arm = cid := by
  match arms with
  | [] =>
    rw [chooseVariant] at h
    exact absurd h (by simp)
  | [a] =>
    rw [chooseVariant] at h
    injection h with h1
    injection h1 with h2 h3
    exact ⟨a, List.mem_singleton_self a, h2⟩
  | a0 :: a1 :: rest =>
    rw [chooseVariant] at h
    cases hsb : sampleBeta ln rng a0.alpha a0.beta k with
    | error e => rw [hsb] at h; dsimp only at h; simp at h
    | ok p =>
      obtain ⟨v, kv⟩ := p
      rw [hsb] at h
      dsimp only at h
      cases hsa : sampleArms ln rng (a1 :: rest) kv with
      | error e => rw [hsa] at h; dsimp only at h; simp at h
      | ok q =>
        obtain ⟨tl, k2⟩ := q
        rw [hsa] at h
        dsimp only at h
        injection h with h1
        injection h1 with h2 h3
        obtain ⟨i, hi, heq, _, _⟩ := foldl_pickGreater_first_max tl (a0.arm, v)
        obtain ⟨hlen, hpair⟩ := sampleArms_ok_pairing ln rng (a0 :: a1 :: rest) k
          ((a0.arm, v) :: tl) k2 (by
            rw [sampleArms, hsb]
            dsimp only
            rw [hsa])
        have hilen : i < (a0 :: a1 :: rest).length := by
          rw [← hlen]
          simpa using hi
        refine ⟨(a0 :: a1 :: rest).getD i banditArmDefault, ?_, ?_⟩
        · rw [List.getD_eq_getElem _ _ hilen]
          exact List.getElem_mem hilen
        · rw [← hpair i hilen, ← heq, h2]

set_option maxHeartbeats 1000000 in
/-- Claim C3: `chooseOptimalVariant` throws on an empty candidate list;
with one candidate it ensures the arm state exists (creating it at the
uniform prior when absent), returns that candidate with confidence 1 and
`isNew = false`, and consumes no random draw; with several candidates the
reported confidence is the winning arm's posterior mean
`alpha / (alpha + beta)` as read from the arm list used for selection, and
`isNew` holds exactly when that arm is at the untouched prior
`alpha = beta = 1`. -/
theorem chooseOptimalVariant_spec (ln : ℚ → ℚ) (rng : ℕ → ℚ)
    (ctx : StrategistContext) (w : World) :
    (ctx.availableVariants = [] →
      chooseOptimalVariant ln rng ctx w =
        .error ("No variants available for section " ++ ctx.sectionKey)) ∧
    (∀ v, ctx.availableVariants = [v] →
      ∃ st db1,
        chooseOptimalVariant ln rng ctx w =
          .ok ({ sectionKey := ctx.sectionKey, variantHash := generateVariantHash v,
                 sect := v, confidence := 1, isNew := false },
               { db := db1, k := w.k }) ∧
        getBanditState db1 ctx.storyId ctx.sectionKey (generateVariantHash v) = some st ∧
        ((getBanditState w.db ctx.storyId ctx.sectionKey (generateVariantHash v) = some st ∧
            db1 = w.db) ∨
         (getBanditState w.db ctx.storyId ctx.sectionKey (generateVariantHash v) = none ∧
            st = initializeBanditArm ctx.storyId ctx.sectionKey (generateVariantHash v) ∧
            db1 = saveBanditState w.db st))) ∧
    (∀ choice w', 2 ≤ ctx.availableVariants.length →
      chooseOptimalVariant ln rng ctx w = .ok (choice, w') →
      ∃ a ∈ (buildArms ctx.storyId ctx.sectionKey ctx.availableVariants w.db).1,
        (∃ k1, chooseVariant ln rng
          (buildArms ctx.storyId ctx.sectionKey ctx.availableVariants w.db).1 w.k =
            .ok (a.arm, k1)) ∧
        choice.variantHash = a.arm.variant ∧
        choice.confidence = a.alpha / (a.alpha + a.beta) ∧
        (choice.isNew = true ↔ (a.alpha = 1 ∧ a.beta = 1))) := by
  refine ⟨?_, ?_, ?_⟩
  · intro hemp
    rw [chooseOptimalVariant, hemp]
  · intro v hone
    rw [chooseOptimalVariant, hone]
    dsimp only
    cases hl : getBanditState w.db ctx.storyId ctx.sectionKey (generateVariantHash v) with
    | some s =>
      refine ⟨s, w.db, ?_, ?_, Or.inl ⟨?_, rfl⟩⟩
      · rw [ensureBanditState, hl]
      · exact hl
      · exact rfl
    | none =>
      refine ⟨initializeBanditArm ctx.storyId ctx.sectionKey (generateVariantHash v),
        saveBanditState w.db
          (initializeBanditArm ctx.storyId ctx.sectionKey (generateVariantHash v)),
        ?_, ?_, Or.inr ⟨?_, rfl, rfl⟩⟩
      · rw [ensureBanditState, hl]
      · exact getBanditState_save_self w.db _
      · exact rfl

  · intro choice w' hlen hok
    match hav : ctx.availableVariants, hlen with
    | v0 :: v1 :: vs, _ =>
    rw [chooseOptimalVariant] at hok
    rw [hav] at hok
    dsimp only at hok
    cases hcv : chooseVariant ln rng
        (buildArms ctx.storyId ctx.sectionKey (v0 :: v1 :: vs) w.db).1 w.k with
    | error e => rw [hcv] at hok; dsimp only at hok; simp at hok
    | ok p =>
      obtain ⟨chosen, k1⟩ := p
      rw [hcv] at hok
      dsimp only at hok
      cases hfi : ((buildArms ctx.storyId ctx.sectionKey (v0 :: v1 :: vs) w.db).1.findIdx?
          (fun a => a.arm.variant = chosen.variant)).bind
          (fun i => (v0 :: v1 :: vs)[i]?) with
      | none => rw [hfi] at hok; dsimp only at hok; simp at hok
      | some cv =>
        rw [hfi] at hok
        dsimp only at hok
        injection hok with h1
        injection h1 with h2 h3
        obtain ⟨asel, hmem, haeq⟩ := chooseVariant_ok_mem ln rng _ w.k chosen k1 hcv
        have hfound : ∃ fa, ((buildArms ctx.storyId ctx.sectionKey (v0 :: v1 :: vs) w.db).1.find?
            (fun a => decide (a.arm.variant = chosen.variant))) = some fa := by
          have hsome : (((buildArms ctx.storyId ctx.sectionKey (v0 :: v1 :: vs) w.db).1.find?
              (fun a => decide (a.arm.variant = chosen.variant)))).isSome := by
            rw [List.find?_isSome]
            exact ⟨asel, hmem, by rw [haeq]; simp⟩
          exact Option.isSome_iff_exists.mp hsome
        obtain ⟨fa, hfa⟩ := hfound
        have hfamem : fa ∈ (buildArms ctx.storyId ctx.sectionKey (v0 :: v1 :: vs) w.db).1 :=
          List.mem_of_find?_eq_some hfa
        have hfav : fa.arm.variant = chosen.variant := by
          have := List.find?_some hfa
          simpa using this
        have hagree : fa.alpha = asel.alpha ∧ fa.beta = asel.beta :=
          buildArms_same_variant ctx.storyId ctx.sectionKey (v0 :: v1 :: vs) w.db fa asel
            hfamem hmem (by rw [hfav, haeq])
        refine ⟨asel, hmem, ⟨k1, by rw [haeq]⟩, ?_, ?_, ?_⟩
        · rw [← h2, haeq]
        · rw [← h2]
          dsimp only
          rw [hfa]
          dsimp only
          rw [hagree.1, hagree.2]
        · rw [← h2]
          dsimp only
          rw [hfa]
          dsimp only
          rw [hagree.1, hagree.2]
          simp

theorem chooseOptimalVariant_spec_witness :
    (([heroA] : List Json) = [heroA]) ∧
    (∃ st db1,
      chooseOptimalVariant (fun q => q) (fun _ => 1 / 2)
          ⟨"s1", Persona.athlete, "hero", [heroA]⟩ ⟨⟨[], [], 0⟩, 0⟩ =
        .ok ({ sectionKey := "hero", variantHash := generateVariantHash heroA,
               sect := heroA, confidence := 1, isNew := false },
             { db := db1, k := 0 }) ∧
      getBanditState db1 ("s1") ("hero") (generateVariantHash heroA) = some st ∧
      ((getBanditState (DB.mk [] [] 0) ("s1") ("hero") (generateVariantHash heroA) = some st ∧
          db1 = DB.mk [] [] 0) ∨
       (getBanditState (DB.mk [] [] 0) ("s1") ("hero") (generateVariantHash heroA) = none ∧
          st = initializeBanditArm ("s1") ("hero") (generateVariantHash heroA) ∧
          db1 = saveBanditState (DB.mk [] [] 0) st))) :=
  ⟨rfl, (chooseOptimalVariant_spec (fun q => q) (fun _ => 1 / 2)
      ⟨"s1", Persona.athlete, "hero", [heroA]⟩ ⟨⟨[], [], 0⟩, 0⟩).2.1 heroA rfl⟩

/-! ### Claims C5 and C10: the timeout sweep -/

lemma updateBanditState_zero (st : BanditState) :
    updateBanditState st 0 = { st with beta := st.beta + 1 } := by
  rw [updateBanditState]
  simp

lemma updateBanditState_key (st : BanditState) (r : ℚ) :
    (updateBanditState st r).storyId = st.storyId ∧
    (updateBanditState st r).sectionKey = st.sectionKey ∧
    (updateBanditState st r).variantHash = st.variantHash :=
  ⟨rfl, rfl, rfl⟩

lemma getConversionEvents_congr (db1 db2 : DB) (sid k h : String) (m : ℚ)
    (he : db1.events = db2.events) (hn : db1.now = db2.now) :
    getConversionEvents db1 sid k h m = getConversionEvents db2 sid k h m := by
  rw [getConversionEvents, getConversionEvents, he, hn]

lemma timeoutFold_frame (sid : String) (m : ℚ) :
    ∀ (sts : List BanditState) (db0 : DB),
      (sts.foldl (fun db st =>
        if getConversionEvents db sid st.sectionKey st.variantHash m = 0 then
          saveBanditState db (updateBanditState st 0)
        else db) db0).events = db0.events ∧
      (sts.foldl (fun db st =>
        if getConversionEvents db sid st.sectionKey st.variantHash m = 0 then
          saveBanditState db (updateBanditState st 0)
        else db) db0).now = db0.now := by
  intro sts
  induction sts with
  | nil => intro db0; exact ⟨rfl, rfl⟩
  | cons u rest ih =>
    intro db0
    rw [List.foldl_cons]
    by_cases hc : getConversionEvents db0 sid u.sectionKey u.variantHash m = 0
    · rw [if_pos hc]
      obtain ⟨he, hn⟩ := ih (saveBanditState db0 (updateBanditState u 0))
      obtain ⟨he2, hn2⟩ := saveBanditState_events db0 (updateBanditState u 0)
      exact ⟨he.trans he2, hn.trans hn2⟩
    · rw [if_neg hc]
      exact ih db0
  
lemma timeoutFold_lookup_other (sid : String) (m : ℚ) :
    ∀ (sts : List BanditState) (db0 : DB) (sid2 k h : String),
      (∀ u ∈ sts, ¬(u.storyId = sid2 ∧ u.sectionKey = k ∧ u.variantHash = h)) →
      getBanditState (sts.foldl (fun db st =>
        if getConversionEvents db sid st.sectionKey st.variantHash m = 0 then
          saveBanditState db (updateBanditState st 0)
        else db) db0) sid2 k h = getBanditState db0 sid2 k h := by
  intro sts
  induction sts with
  | nil => intro db0 sid2 k h hout; rfl
  | cons u rest ih =>
    intro db0 sid2 k h hout
    rw [List.foldl_cons]
    by_cases hc : getConversionEvents db0 sid u.sectionKey u.variantHash m = 0
    · rw [if_pos hc]
      rw [ih _ sid2 k h (fun x hx => hout x (List.mem_cons_of_mem _ hx))]
      refine getBanditState_save_other db0 _ sid2 k h ?_
      intro hcon
      exact hout u (List.mem_cons_self _ _) hcon
    · rw [if_neg hc]
      exact ih _ sid2 k h (fun x hx => hout x (List.mem_cons_of_mem _ hx))

lemma getBanditState_of_mem_nodup :
    ∀ (rows : List BanditState) (st : BanditState),
      (rows.map (fun s => (s.storyId, s.sectionKey, s.variantHash))).Nodup →
      st ∈ rows →
      rows.find? (fun s => keyMatches s st.storyId st.sectionKey st.variantHash) = some st := by
  intro rows
  induction rows with
  | nil => intro st _ hmem; simp at hmem
  | cons r rest ih =>
    intro st hnd hmem
    rw [List.map_cons, List.nodup_cons] at hnd
    rcases List.mem_cons.mp hmem with h1 | h1
    · rw [h1]
      simp only [List.find?_cons]
      rw [keyMatches_self r]
    · have hne : keyMatches r st.storyId st.sectionKey st.variantHash = false := by
        rw [← Bool.not_eq_true, keyMatches_iff]
        intro hc
        refine hnd.1 ?_
        have : (st.storyId, st.sectionKey, st.variantHash) ∈
            rest.map (fun s => (s.storyId, s.sectionKey, s.variantHash)) :=
          List.mem_map_of_mem _ h1
        rw [← hc.1, ← hc.2.1, ← hc.2.2] at this
        exact this
      simp only [List.find?_cons]
      rw [hne]
      exact ih st hnd.2 h1

/-- One `processTimeouts` invocation, restricted to one tracked arm: the
final stored row under that arm is the original state when its in-window
conversion count is positive, and the state with one failure applied when
the count is zero. -/
lemma processTimeouts_lookup (db : DB) (sid : String) (m : ℚ)
    (hnd : (db.banditStates.map (fun s => (s.storyId, s.sectionKey, s.variantHash))).Nodup)
    (st : BanditState) (hmem : st ∈ getBanditStatesForStory db sid) :
    getBanditState (processTimeouts db sid m) st.storyId st.sectionKey st.variantHash =
      (if getConversionEvents db sid st.sectionKey st.variantHash m = 0 then
        some (updateBanditState st 0) else some st) := by
  have hsub : List.Sublist (getBanditStatesForStory db sid) db.banditStates := by
    rw [getBanditStatesForStory]
    exact List.filter_sublist _
  have hndsts : ((getBanditStatesForStory db sid).map
      (fun s => (s.storyId, s.sectionKey, s.variantHash))).Nodup :=
    (hsub.map _).nodup hnd
  obtain ⟨pre, post, hsplit⟩ := List.append_of_mem hmem
  have hmemdb : st ∈ db.banditStates := hsub.mem hmem
  have hlook : getBanditState db st.storyId st.sectionKey st.variantHash = some st :=
    getBanditState_of_mem_nodup db.banditStates st hnd hmemdb
  have hndsplit := hndsts
  rw [hsplit, List.map_append, List.map_cons] at hndsplit
  have hpre : ∀ u ∈ pre, ¬(u.storyId = st.storyId ∧ u.sectionKey = st.sectionKey ∧
      u.variantHash = st.variantHash) := by
    intro u hu hc
    have h1 : (u.storyId, u.sectionKey, u.variantHash) ∈
        pre.map (fun s => (s.storyId, s.sectionKey, s.variantHash)) :=
      List.mem_map_of_mem _ hu
    rw [hc.1, hc.2.1, hc.2.2] at h1
    have hdisj := (List.nodup_append.mp hndsplit).2.2
    exact hdisj h1 (List.mem_cons_self _ _)
  have hpost : ∀ u ∈ post, ¬(u.storyId = st.storyId ∧ u.sectionKey = st.sectionKey ∧
      u.variantHash = st.variantHash) := by
    intro u hu hc
    have h1 : (u.storyId, u.sectionKey, u.variantHash) ∈
        post.map (fun s => (s.storyId, s.sectionKey, s.variantHash)) :=
      List.mem_map_of_mem _ hu
    rw [hc.1, hc.2.1, hc.2.2] at h1
    have h2 := (List.nodup_cons.mp (List.nodup_append.mp hndsplit).2.1).1
    exact h2 h1
  rw [processTimeouts, hsplit, List.foldl_append, List.foldl_cons]
  obtain ⟨hev, hnow⟩ := timeoutFold_frame sid m pre db
  have hlookpre : getBanditState (pre.foldl (fun db st =>
      if getConversionEvents db sid st.sectionKey st.variantHash m = 0 then
        saveBanditState db (updateBanditState st 0)
      else db) db) st.storyId st.sectionKey st.variantHash = some st := by
    rw [timeoutFold_lookup_other sid m pre db _ _ _ hpre]
    exact hlook
  have hcount : getConversionEvents (pre.foldl (fun db st =>
      if getConversionEvents db sid st.sectionKey st.variantHash m = 0 then
        saveBanditState db (updateBanditState st 0)
      else db) db) sid st.sectionKey st.variantHash m =
      getConversionEvents db sid st.sectionKey st.variantHash m :=
    getConversionEvents_congr _ _ _ _ _ _ hev hnow
  by_cases hc : getConversionEvents db sid st.sectionKey st.variantHash m = 0
  · rw [if_pos hc]
    rw [if_pos (by rw [hcount]; exact hc)]
    rw [timeoutFold_lookup_other sid m post _ _ _ _ (by
      intro u hu hcon
      exact hpost u hu hcon)]
    have := getBanditState_save_self (pre.foldl (fun db st =>
      if getConversionEvents db sid st.sectionKey st.variantHash m = 0 then
        saveBanditState db (updateBanditState st 0)
      else db) db) (updateBanditState st 0)
    exact this
  · rw [if_neg hc]
    rw [if_neg (by rw [hcount]; exact hc)]
    rw [timeoutFold_lookup_other sid m post _ _ _ _ (by
      intro u hu hcon
      exact hpost u hu hcon)]
    exact hlookpre

/-- Claim C5: one `processTimeouts` invocation either leaves an arm's
stored state entirely unchanged (at least one conversion event inside the
trailing window) or increments its beta by exactly 1, leaving alpha and
every other field unchanged (zero conversion events in the window). -/
theorem processTimeouts_per_arm (db : DB) (sid : String) (m : ℚ)
    (hnd : (db.banditStates.map (fun s => (s.storyId, s.sectionKey, s.variantHash))).Nodup)
    (st : BanditState) (hmem : st ∈ getBanditStatesForStory db sid) :
    (getConversionEvents db sid st.sectionKey st.variantHash m ≠ 0 →
      getBanditState (processTimeouts db sid m) st.storyId st.sectionKey st.variantHash =
        some st) ∧
    (getConversionEvents db sid st.sectionKey st.variantHash m = 0 →
      getBanditState (processTimeouts db sid m) st.storyId st.sectionKey st.variantHash =
        some { st with beta := st.beta + 1 }) := by
  constructor
  · intro hpos
    rw [processTimeouts_lookup db sid m hnd st hmem, if_neg hpos]
  · intro hzero
    rw [processTimeouts_lookup db sid m hnd st hmem, if_pos hzero,
      updateBanditState_zero]

theorem processTimeouts_per_arm_witness :
    ((((DB.mk [BanditState.mk ("s1") ("hero") ("h1") 1 1] [] 0).banditStates.map
        (fun s => (s.storyId, s.sectionKey, s.variantHash))).Nodup) ∧
      BanditState.mk ("s1") ("hero") ("h1") 1 1 ∈
        getBanditStatesForStory (DB.mk [BanditState.mk ("s1") ("hero") ("h1") 1 1] [] 0) ("s1") ∧
      getConversionEvents (DB.mk [BanditState.mk ("s1") ("hero") ("h1") 1 1] [] 0)
        ("s1") ("hero") ("h1") 5 = 0) ∧
    getBanditState
        (processTimeouts (DB.mk [BanditState.mk ("s1") ("hero") ("h1") 1 1] [] 0) ("s1") 5)
        ("s1") ("hero") ("h1") =
      some { BanditState.mk ("s1") ("hero") ("h1") 1 1 with
        beta := (BanditState.mk ("s1") ("hero") ("h1") 1 1).beta + 1 } := by
  have hnd : (((DB.mk [BanditState.mk ("s1") ("hero") ("h1") 1 1] [] 0).banditStates.map
      (fun s => (s.storyId, s.sectionKey, s.variantHash))).Nodup) := by
    simp
  have hmem : BanditState.mk ("s1") ("hero") ("h1") 1 1 ∈
      getBanditStatesForStory (DB.mk [BanditState.mk ("s1") ("hero") ("h1") 1 1] [] 0) ("s1") := by
    rw [getBanditStatesForStory]
    simp
  have hzero : getConversionEvents (DB.mk [BanditState.mk ("s1") ("hero") ("h1") 1 1] [] 0)
      ("s1") ("hero") ("h1") 5 = 0 := rfl
  exact ⟨⟨hnd, hmem, hzero⟩,
    (processTimeouts_per_arm (DB.mk [BanditState.mk ("s1") ("hero") ("h1") 1 1] [] 0)
      ("s1") 5 hnd (BanditState.mk ("s1") ("hero") ("h1") 1 1) hmem).2 hzero⟩

/-- Claim C10: only events of kind `ctaClick` count as conversions for the
timeout sweep.  `recordConversion` itself appends an event of kind
`conversion`, and an arm whose only in-window events are of that kind
still receives the failure increment, exactly as if it had no activity. -/
theorem processTimeouts_ignores_conversion_kind :
    (∀ (db : DB) (sid : String) (persona : Persona) (k h : String) (reward : ℚ),
      (recordConversion sid persona k h reward db).events =
        db.events ++ [EventRec.mk sid persona.toStr k h ("conversion") db.now]) ∧
    (∀ (db : DB) (sid : String) (m : ℚ) (st : BanditState),
      (db.banditStates.map (fun s => (s.storyId, s.sectionKey, s.variantHash))).Nodup →
      st ∈ getBanditStatesForStory db sid →
      (∀ e ∈ db.events, e.storyId = sid → e.sectionKey = st.sectionKey →
        e.variantHash = st.variantHash → e.event = "conversion") →
      getBanditState (processTimeouts db sid m) st.storyId st.sectionKey st.variantHash =
        some { st with beta := st.beta + 1 }) := by
  constructor
  · intro db sid persona k h reward
    rw [recordConversion]
    cases hl : getBanditState db sid k h with
    | none =>
      obtain ⟨he, hn⟩ := saveBanditState_events db
        (updateBanditState (initializeBanditArm sid k h) reward)
      rw [trackEvent, he, hn]
    | some s =>
      obtain ⟨he, hn⟩ := saveBanditState_events db (updateBanditState s reward)
      rw [trackEvent, he, hn]
  · intro db sid m st hnd hmem hconvonly
    have hzero : getConversionEvents db sid st.sectionKey st.variantHash m = 0 := by
      rw [getConversionEvents, List.length_eq_zero]
      rw [List.filter_eq_nil_iff]
      intro e he
      by_cases h1 : e.storyId = sid
      · by_cases h2 : e.sectionKey = st.sectionKey
        · by_cases h3 : e.variantHash = st.variantHash
          · have hk := hconvonly e he h1 h2 h3
            have hne : ("conversion" : String) ≠ "ctaClick" := by decide
            simp [h1, h2, h3, hk, hne, List.contains]
          · simp [h3]
        · simp [h2]
      · simp [h1]
    rw [processTimeouts_lookup db sid m hnd st hmem, if_pos hzero, updateBanditState_zero]

theorem processTimeouts_ignores_conversion_kind_witness :
    ((((DB.mk [BanditState.mk ("s1") ("hero") ("h1") 2 1]
        [EventRec.mk ("s1") ("commuter") ("hero") ("h1") ("conversion") 0] 0).banditStates.map
          (fun s => (s.storyId, s.sectionKey, s.variantHash))).Nodup) ∧
      BanditState.mk ("s1") ("hero") ("h1") 2 1 ∈
        getBanditStatesForStory (DB.mk [BanditState.mk ("s1") ("hero") ("h1") 2 1]
          [EventRec.mk ("s1") ("commuter") ("hero") ("h1") ("conversion") 0] 0) ("s1")) ∧
    getBanditState
        (processTimeouts (DB.mk [BanditState.mk ("s1") ("hero") ("h1") 2 1]
          [EventRec.mk ("s1") ("commuter") ("hero") ("h1") ("conversion") 0] 0) ("s1") 5)
        ("s1") ("hero") ("h1") =
      some { BanditState.mk ("s1") ("hero") ("h1") 2 1 with
        beta := (BanditState.mk ("s1") ("hero") ("h1") 2 1).beta + 1 } := by
  have hnd : (((DB.mk [BanditState.mk ("s1") ("hero") ("h1") 2 1]
      [EventRec.mk ("s1") ("commuter") ("hero") ("h1") ("conversion") 0] 0).banditStates.map
        (fun s => (s.storyId, s.sectionKey, s.variantHash))).Nodup) := by
    simp
  have hmem : BanditState.mk ("s1") ("hero") ("h1") 2 1 ∈
      getBanditStatesForStory (DB.mk [BanditState.mk ("s1") ("hero") ("h1") 2 1]
        [EventRec.mk ("s1") ("commuter") ("hero") ("h1") ("conversion") 0] 0) ("s1") := by
    rw [getBanditStatesForStory]
    simp
  have hconv : ∀ e ∈ (DB.mk [BanditState.mk ("s1") ("hero") ("h1") 2 1]
      [EventRec.mk ("s1") ("commuter") ("hero") ("h1") ("conversion") 0] 0).events,
      e.storyId = "s1" → e.sectionKey = (BanditState.mk ("s1") ("hero") ("h1") 2 1).sectionKey →
      e.variantHash = (BanditState.mk ("s1") ("hero") ("h1") 2 1).variantHash →
      e.event = "conversion" := by
    intro e he
    simp at he
    rw [he]
    intro _ _ _
    rfl
  exact ⟨⟨hnd, hmem⟩,
    processTimeouts_ignores_conversion_kind.2
      (DB.mk [BanditState.mk ("s1") ("hero") ("h1") 2 1]
        [EventRec.mk ("s1") ("commuter") ("hero") ("h1") ("conversion") 0] 0)
      ("s1") 5 (BanditState.mk ("s1") ("hero") ("h1") 2 1) hnd hmem hconv⟩

/-! ### Claim C6: the storyboard assembler -/

lemma findVal_map_replace_self :
    ∀ (m : List (String × String)) (k v : String),
      m.any (fun p => p.1 = k) = true →
      findVal (m.map (fun p => if p.1 = k then (k, v) else p)) k = some v := by
  intro m k v hany
  induction m with
  | nil => simp at hany
  | cons p rest ih =>
    rw [List.any_cons, Bool.or_eq_true] at hany
    rw [List.map_cons]
    by_cases hp : p.1 = k
    · rw [if_pos hp, findVal, if_pos rfl]
    · rw [if_neg hp, findVal, if_neg hp]
      exact ih (hany.resolve_left (by simpa using hp))

lemma findVal_map_replace_other :
    ∀ (m : List (String × String)) (k v k2 : String), k2 ≠ k →
      findVal (m.map (fun p => if p.1 = k then (k, v) else p)) k2 = findVal m k2 := by
  intro m k v k2 h
  induction m with
  | nil => rfl
  | cons p rest ih =>
    rw [List.map_cons]
    by_cases hp : p.1 = k
    · rw [if_pos hp, findVal, findVal, if_neg (fun hc => h hc.symm),
        if_neg (by rw [hp]; exact fun hc => h hc.symm)]
      exact ih
    · rw [if_neg hp, findVal, findVal]
      by_cases hpk : p.1 = k2
      · rw [if_pos hpk, if_pos hpk]
      · rw [if_neg hpk, if_neg hpk]
        exact ih

lemma findVal_append_one_self :
    ∀ (m : List (String × String)) (k v : String),
      ¬ m.any (fun p => p.1 = k) = true →
      findVal (m ++ [(k, v)]) k = some v := by
  intro m k v hnone
  induction m with
  | nil =>
    show findVal [(k, v)] k = some v
    rw [findVal, if_pos rfl]
  | cons p rest ih =>
    have hp : ¬ p.1 = k := by
      intro hc
      exact hnone (by rw [List.any_cons, Bool.or_eq_true]; left; simpa using hc)
    rw [List.cons_append, findVal, if_neg hp]
    refine ih ?_
    intro hc
    rw [List.any_cons, Bool.or_eq_true] at hnone
    exact hnone (Or.inr hc)

lemma findVal_append_one_other :
    ∀ (m : List (String × String)) (k v k2 : String), k2 ≠ k →
      findVal (m ++ [(k, v)]) k2 = findVal m k2 := by
  intro m k v k2 h
  induction m with
  | nil =>
    show findVal [(k, v)] k2 = findVal [] k2
    simp only [findVal]
    rw [if_neg (fun hc => h hc.symm)]
  | cons p rest ih =>
    rw [List.cons_append, findVal, findVal]
    by_cases hpk : p.1 = k2
    · rw [if_pos hpk, if_pos hpk]
    · rw [if_neg hpk, if_neg hpk]
      exact ih

lemma recordGet_recordSet_same (m : List (String × String)) (k v : String) :
    recordGet (recordSet m k v) k = some v := by
  rw [recordSet]
  by_cases hany : m.any (fun p => p.1 = k) = true
  · rw [if_pos hany]
    exact findVal_map_replace_self m k v hany
  · rw [if_neg hany]
    exact findVal_append_one_self m k v hany

lemma recordGet_recordSet_other (m : List (String × String)) (k v k2 : String)
    (h : k2 ≠ k) : recordGet (recordSet m k v) k2 = recordGet m k2 := by
  rw [recordSet]
  by_cases hany : m.any (fun p => p.1 = k) = true
  · rw [if_pos hany]
    exact findVal_map_replace_other m k v k2 h
  · rw [if_neg hany]
    exact findVal_append_one_other m k v k2 h

lemma hashFold_pres :
    ∀ (rs : List (String × Json × String)) (m0 : List (String × String)) (key : String),
      (∀ r ∈ rs, r.1 = key → r.2.2 = "") →
      recordGet (rs.foldl (fun m r => if r.2.2 ≠ "" then recordSet m r.1 r.2.2 else m) m0) key =
        recordGet m0 key := by
  intro rs
  induction rs with
  | nil => intro m0 key hout; rfl
  | cons r rest ih =>
    intro m0 key hout
    rw [List.foldl_cons]
    by_cases hv : r.2.2 ≠ ""
    · rw [if_pos hv]
      rw [ih _ key (fun x hx => hout x (List.mem_cons_of_mem _ hx))]
      exact recordGet_recordSet_other m0 r.1 r.2.2 key
        (fun hc => hv (hout r (List.mem_cons_self _ _) hc.symm))
    · rw [if_neg hv]
      exact ih _ key (fun x hx => hout x (List.mem_cons_of_mem _ hx))

lemma assembleStoryboard_eq (choose : StrategistContext → Except String VariantChoice)
    (storyId : String) (persona : Persona) (base : Storyboard)
    (allStoryboards : List StoryboardRecord) :
    assembleStoryboard choose storyId persona base allStoryboards =
      (Storyboard.mk base.version base.brand persona
        ((slotResults choose storyId persona base allStoryboards).map (fun r => r.2.1)),
       (slotResults choose storyId persona base allStoryboards).foldl
         (fun m r => if r.2.2 ≠ "" then recordSet m r.1 r.2.2 else m) []) := rfl

/-- Claim C6: for every base document, `assembleStoryboard` returns a
document with exactly one section per original slot in the original slot
order — each slot resolves to the chosen section when the strategist
succeeds and falls back to that slot's original base section when it
fails — and, when the slot keys are pairwise distinct and the strategist
fails on one slot, that slot keeps its base section at its original
position and the returned variant-identifier map contains no entry for
its key, the other slots being unaffected (they are given by the same
per-slot resolution formula). -/
theorem assembleStoryboard_spec
    (choose : StrategistContext → Except String VariantChoice)
    (storyId : String) (persona : Persona) (base : Storyboard)
    (allStoryboards : List StoryboardRecord)
    (hnodup : (base.sections.map sectionKeyOf).Nodup)
    (pre post : List Json) (sect0 : Json) (e : String)
    (hsplit : base.sections = pre ++ sect0 :: post)
    (herr : choose (StrategistContext.mk storyId persona (sectionKeyOf sect0)
        (getSectionVariants (sectionKeyOf sect0) allStoryboards sect0)) =
      Except.error e) :
    (assembleStoryboard choose storyId persona base allStoryboards).1.sections =
      base.sections.map (fun s =>
        match choose (StrategistContext.mk storyId persona (sectionKeyOf s)
            (getSectionVariants (sectionKeyOf s) allStoryboards s)) with
        | Except.ok c => c.sect
        | Except.error _ => s) ∧
    ((assembleStoryboard choose storyId persona base allStoryboards).1.sections)[pre.length]? =
      some sect0 ∧
    recordGet (assembleStoryboard choose storyId persona base allStoryboards).2
      (sectionKeyOf sect0) = none := by
  have hmap : (assembleStoryboard choose storyId persona base allStoryboards).1.sections =
      base.sections.map (fun s =>
        match choose (StrategistContext.mk storyId persona (sectionKeyOf s)
            (getSectionVariants (sectionKeyOf s) allStoryboards s)) with
        | Except.ok c => c.sect
        | Except.error _ => s) := by
    rw [assembleStoryboard_eq]
    show (slotResults choose storyId persona base allStoryboards).map (fun r => r.2.1) = _
    rw [slotResults, List.map_map]
    refine List.map_congr_left ?_
    intro s _
    dsimp only [Function.comp]
    cases choose (StrategistContext.mk storyId persona (sectionKeyOf s)
        (getSectionVariants (sectionKeyOf s) allStoryboards s)) <;> rfl
  refine ⟨hmap, ?_, ?_⟩
  · rw [hmap, hsplit, List.map_append, List.map_cons]
    rw [List.getElem?_append_right (by simp)]
    simp only [List.length_map, Nat.sub_self, List.getElem?_cons_zero, herr]
  · rw [assembleStoryboard_eq]
    refine Eq.trans (hashFold_pres _ [] (sectionKeyOf sect0) ?_) rfl
    intro r hr hkey
    rw [slotResults] at hr
    rcases List.mem_map.mp hr with ⟨s, hs, hrs⟩
    cases hchoice : choose (StrategistContext.mk storyId persona (sectionKeyOf s)
        (getSectionVariants (sectionKeyOf s) allStoryboards s)) with
    | error msg =>
      rw [hchoice] at hrs
      dsimp only at hrs
      rw [← hrs]
    | ok c =>
      rw [hchoice] at hrs
      dsimp only at hrs
      rw [← hrs] at hkey
      have hks : sectionKeyOf s = sectionKeyOf sect0 := hkey
      have hseq : s = sect0 := by
        have hnd := hnodup
        rw [hsplit, List.map_append, List.map_cons] at hnd
        have hsmem := hs
        rw [hsplit] at hsmem
        rcases List.mem_append.mp hsmem with hpre | hrest
        · rcases List.nodup_append.mp hnd with ⟨-, -, hdisj⟩
          have h1 : sectionKeyOf s ∈ pre.map sectionKeyOf := List.mem_map_of_mem _ hpre
          have h2 : sectionKeyOf s ∈ sectionKeyOf sect0 :: post.map sectionKeyOf := by
            rw [hks]; exact List.mem_cons_self _ _
          exact absurd h2 (hdisj h1)
        · rcases List.mem_cons.mp hrest with heq | hpost
          · exact heq
          · rcases List.nodup_append.mp hnd with ⟨-, hnd2, -⟩
            have hnotin := (List.nodup_cons.mp hnd2).1
            have hin : sectionKeyOf sect0 ∈ post.map sectionKeyOf := by
              rw [← hks]; exact List.mem_map_of_mem _ hpost
            exact absurd hin hnotin
      rw [hseq] at hchoice
      rw [herr] at hchoice
      exact Except.noConfusion hchoice

theorem assembleStoryboard_spec_witness :
    (assembleStoryboard (fun _ => Except.error "db down") "s1" Persona.commuter
        (Storyboard.mk 1 (Json.obj []) Persona.commuter [Json.obj [("key", Json.str "hero")]])
        []).1.sections = [Json.obj [("key", Json.str "hero")]] ∧
    recordGet (assembleStoryboard (fun _ => Except.error "db down") "s1" Persona.commuter
        (Storyboard.mk 1 (Json.obj []) Persona.commuter [Json.obj [("key", Json.str "hero")]])
        []).2 "hero" = none := by
  have h := assembleStoryboard_spec (fun _ => Except.error "db down") "s1" Persona.commuter
    (Storyboard.mk 1 (Json.obj []) Persona.commuter [Json.obj [("key", Json.str "hero")]]) []
    (by decide) [] [] (Json.obj [("key", Json.str "hero")]) "db down" rfl rfl
  refine ⟨?_, ?_⟩
  · rw [h.1]
    rfl
  · exact h.2.2

end BuildStory
